import Mathlib

/-!
# TSMonkey: a shallow embedding of the Monkey interpreter (TypeScript sources)

This file embeds the TypeScript sources of the TSMonkey repository
(`src/token.ts`, `src/lexer.ts`, `src/ast.ts`, `src/parser.ts`,
`src/objects.ts`, `src/evaluator.ts`) into Lean 4 and proves properties
of the embedded code.

Modelling conventions:

* JavaScript numbers (IEEE-754 doubles) are modelled as exact rationals `ℚ`.
  Every numeric computation appearing in a theorem of this file stays within
  values on which double arithmetic is exact (small integers and halves), so
  the model agrees with the JavaScript semantics on those inputs.
  Division by zero (JS `Infinity`/`NaN`) is not modelled; no theorem below
  evaluates a division by zero.
* JavaScript object identity (`===` between class instances) is modelled by
  a reference id (`ref : Nat`) attached to every runtime object; objects are
  allocated with a monotone counter, so distinct allocations receive distinct
  ids.  The canonical singletons `TRUE`, `FALSE`, `M_NULL` and the builtin
  function objects are pre-allocated with ids `0`–`7`.
* Mutable JavaScript state is passed explicitly: environments live in a heap
  of frames (`EvalState.frames`), and the mutable `Array` objects backing
  `MArray` live in a heap of element lists (`EvalState.arrays`).
* `MObject | null` is `Option MObject` (`none` = JS `null`; the JS
  `undefined` that can flow out of an out-of-range element read of a
  malformed index is merged with `null`, it is not reachable in any theorem
  below).
* Possibly non-terminating recursion (the tree-walking evaluator, the Pratt
  parser, the lexer's scanning loops) is driven by explicit fuel; running
  out of fuel yields a dedicated `diverge` result that is distinguished from
  every real outcome.  A JS `throw` is the dedicated `thrown` result.
* JS `string` is Lean `String` (source text is handled as `List Char`).
  `String.length` counts code points where JS counts UTF-16 units, and
  `Char.toLower`/`Char.toUpper` implement the ASCII case mapping where JS is
  Unicode-aware; all inputs appearing in the theorems below are ASCII, where
  the two agree.
-/

namespace TSMonkey

/-! ## token.ts -/

inductive TokenType where
  | ILLEGAL | EOF | ASSIGN | EQ | NOT_EQ | IDENT | INT | PLUS | COMMA
  | SEMICOLON | COLON | MINUS | BANG | SLASH | ASTERISK | LT | GT
  | LPAREN | RPAREN | LBRACE | RBRACE | LBRACKET | RBRACKET
  | FUNCTION | LET | TRUE | FALSE | IF | ELSE | RETURN | STRING
  deriving DecidableEq, BEq

/-- The string value of each `TokenType` enum member (used by template-string
interpolation in parser error messages). -/
def TokenType.str : TokenType → String
  | .ILLEGAL => "ILLEGAL"
  | .EOF => "EOF"
  | .ASSIGN => "="
  | .EQ => "=="
  | .NOT_EQ => "!="
  | .IDENT => "IDENT"
  | .INT => "INT"
  | .PLUS => "+"
  | .COMMA => ","
  | .SEMICOLON => ";"
  | .COLON => ":"
  | .MINUS => "-"
  | .BANG => "!"
  | .SLASH => "/"
  | .ASTERISK => "*"
  | .LT => "<"
  | .GT => ">"
  | .LPAREN => "("
  | .RPAREN => ")"
  | .LBRACE => "\x7b"
  | .RBRACE => "\x7d"
  | .LBRACKET => "["
  | .RBRACKET => "]"
  | .FUNCTION => "FUNCTION"
  | .LET => "LET"
  | .TRUE => "TRUE"
  | .FALSE => "FALSE"
  | .IF => "IF"
  | .ELSE => "ELSE"
  | .RETURN => "RETURN"
  | .STRING => "STRING"

structure Token where
  tokenType : TokenType
  literal : String
  deriving DecidableEq

/-- `lookupIdent` from token.ts: the `KEYWORDS` table. -/
def lookupIdent (value : String) : TokenType :=
  if value == "fn" then .FUNCTION
  else if value == "let" then .LET
  else if value == "true" then .TRUE
  else if value == "false" then .FALSE
  else if value == "if" then .IF
  else if value == "else" then .ELSE
  else if value == "return" then .RETURN
  else .IDENT

/-! ## lexer.ts

`ch : Option Char` models the `ch` field, whose value is either a
one-character string or the empty string `ZERO` (modelled as `none`).
The `while` loops of `skipWhitespace`, `readValue` and `readString` are
modelled with explicit fuel; a `none` result marks the (unreachable, see
`Lexer.Inv`) case of the loop not finishing within the fuel. -/

structure Lexer where
  input : List Char
  position : Nat
  readPosition : Nat
  ch : Option Char
  deriving DecidableEq

namespace Lexer

/-- `WHITE_SPACES.includes(ch)`; the empty string is not a whitespace. -/
def isWhitespaceCh : Option Char → Bool
  | some c => c == ' ' || c == '\t' || c == '\n' || c == '\r'
  | none => false

/-- `isDigit` from lexer.ts (`/^\d$/` on a one-character string; false on `ZERO`). -/
def isDigitCh : Option Char → Bool
  | some c => c.isDigit
  | none => false

/-- `Lexer.isIdentifier`: the lowercase and uppercase forms differ, or `_`.
(ASCII case mapping; `ZERO` has equal case forms and is not `_`.) -/
def isIdentifierCh : Option Char → Bool
  | some c => (c.toLower != c.toUpper) || c == '_'
  | none => false

/-- Render `ch` the way JS template strings render it (`''` for `ZERO`). -/
def chStr : Option Char → String
  | some c => String.mk [c]
  | none => ""

def peakChar (l : Lexer) : Option Char :=
  if l.readPosition ≥ l.input.length then none
  else l.input.get? l.readPosition

def readChar (l : Lexer) : Lexer :=
  { l with ch := peakChar l, position := l.readPosition,
           readPosition := l.readPosition + 1 }

/-- The `Lexer` constructor: fields initialised to `0`/`ZERO`, then one `readChar()`. -/
def newLexer (input : List Char) : Lexer :=
  readChar { input := input, position := 0, readPosition := 0, ch := none }

/-- `input.substring(start, stop)` for `start ≤ stop` (the only way it is called). -/
def substring (input : List Char) (start stop : Nat) : String :=
  String.mk ((input.take stop).drop start)

def token (l : Lexer) (tokenType : TokenType) : Token :=
  { tokenType := tokenType, literal := chStr l.ch }

def endsWithEqual (l : Lexer) (oneChar twoChars : TokenType)
    (duplicateChars : Bool) : Token × Lexer :=
  if peakChar l == some '=' then
    let currentChar := l.ch
    let l' := readChar l
    let value := if duplicateChars then chStr currentChar ++ chStr currentChar
                 else chStr currentChar ++ chStr l'.ch
    ({ tokenType := twoChars, literal := value }, l')
  else (token l oneChar, l)

/-- The `while (WHITE_SPACES.includes(this.ch))` loop of `skipWhitespace`. -/
def skipWhitespaceGo : Nat → Lexer → Option Lexer
  | 0, _ => none
  | fuel + 1, l => if isWhitespaceCh l.ch then skipWhitespaceGo fuel (readChar l) else some l

def skipWhitespace (l : Lexer) : Option Lexer :=
  skipWhitespaceGo (l.input.length + 1) l

/-- The `while (predicate(this.ch))` loop of `readValue`. -/
def readValueGo (pred : Option Char → Bool) : Nat → Lexer → Option Lexer
  | 0, _ => none
  | fuel + 1, l => if pred l.ch then readValueGo pred fuel (readChar l) else some l

def readValue (pred : Option Char → Bool) (l : Lexer) : Option (String × Lexer) :=
  let currentPosition := l.position
  match readValueGo pred (l.input.length + 1) l with
  | none => none
  | some l' => some (substring l.input currentPosition l'.position, l')

def readIdentifier (l : Lexer) : Option (String × Lexer) :=
  readValue isIdentifierCh l

def readNumber (l : Lexer) : Option (String × Lexer) :=
  readValue isDigitCh l

/-- The `while (true) { readChar(); if (ch == '"' || ch == ZERO) break }` loop. -/
def readStringGo : Nat → Lexer → Option Lexer
  | 0, _ => none
  | fuel + 1, l =>
    let l' := readChar l
    if l'.ch == some '"' || l'.ch == none then some l' else readStringGo fuel l'

def readStringLit (l : Lexer) : Option (String × Lexer) :=
  let start := l.position + 1
  match readStringGo (l.input.length + 1) l with
  | none => none
  | some l' => some (substring l.input start l'.position, l')

/-- `Lexer.nextToken`.  Returns the token and the advanced lexer;
`none` marks a scanning loop running out of fuel (unreachable from any
state satisfying `Inv`, see `nextToken_total_eof_forever`). -/
def nextToken (l : Lexer) : Option (Token × Lexer) :=
  match skipWhitespace l with
  | none => none
  | some l =>
    match l.ch with
    | none => some ({ tokenType := .EOF, literal := "" }, readChar l)
    | some c =>
      if c == '=' then
        let (t, l') := endsWithEqual l .ASSIGN .EQ true
        some (t, readChar l')
      else if c == '!' then
        let (t, l') := endsWithEqual l .BANG .NOT_EQ false
        some (t, readChar l')
      else if c == ';' then some (token l .SEMICOLON, readChar l)
      else if c == ':' then some (token l .COLON, readChar l)
      else if c == ',' then some (token l .COMMA, readChar l)
      else if c == '(' then some (token l .LPAREN, readChar l)
      else if c == ')' then some (token l .RPAREN, readChar l)
      else if c == '\x7b' then some (token l .LBRACE, readChar l)
      else if c == '\x7d' then some (token l .RBRACE, readChar l)
      else if c == '[' then some (token l .LBRACKET, readChar l)
      else if c == ']' then some (token l .RBRACKET, readChar l)
      else if c == '+' then some (token l .PLUS, readChar l)
      else if c == '-' then some (token l .MINUS, readChar l)
      else if c == '*' then some (token l .ASTERISK, readChar l)
      else if c == '/' then some (token l .SLASH, readChar l)
      else if c == '<' then some (token l .LT, readChar l)
      else if c == '>' then some (token l .GT, readChar l)
      else if c == '"' then
        match readStringLit l with
        | none => none
        | some (s, l') => some ({ tokenType := .STRING, literal := s }, readChar l')
      else if isIdentifierCh (some c) then
        match readIdentifier l with
        | none => none
        | some (identifier, l') => some ({ tokenType := lookupIdent identifier, literal := identifier }, l')
      else if isDigitCh (some c) then
        match readNumber l with
        | none => none
        | some (n, l') => some ({ tokenType := .INT, literal := n }, l')
      else
        -- the `default` arm returns without the trailing `readChar()`
        some ({ tokenType := .ILLEGAL, literal := chStr (some c) }, l)

/-- State invariant established by `readChar` (hence by the constructor and
by every call of `nextToken`): `readPosition` is one past `position` and
`ch` caches the input character at `position` (`none` past the end). -/
def Inv (l : Lexer) : Prop :=
  l.readPosition = l.position + 1 ∧ l.ch = l.input.get? l.position

end Lexer

/-! ## ast.ts

In the TypeScript sources `Expression` is an alias of `Statement` and all
node classes extend `Statement`; the embedding uses one inductive `Node`.
`BlockStatement` additionally occurs as a field type (`IfExpression`,
`FunctionLiteral`, `MFunction`), so blocks get their own type `Block`
wrapped by the `Node.blockStatement` constructor.  Nullable fields are
`Option`s; `ExpressionList` is `Option (List (Option Node))`. -/

/-- `Identifier` as used in field position (`LetStatement.name`,
`FunctionLiteral.parameters`). -/
structure Ident where
  token : Token
  value : String
  deriving DecidableEq

mutual
inductive Node where
  | identifier (token : Token) (value : String)
  | stringLiteral (token : Token) (value : String)
  | letStatement (token : Token) (name : Ident) (value : Option Node)
  | expressionStatement (token : Token) (expression : Option Node)
  | returnStatement (token : Token) (returnValue : Option Node)
  | integerLiteral (token : Token) (value : ℚ)
  | booleanLiteral (token : Token) (value : Bool)
  | prefixExpression (token : Token) (operator : String) (right : Option Node)
  | infixExpression (token : Token) (left : Option Node) (operator : String) (right : Option Node)
  | callExpression (token : Token) (fn : Option Node) (args : Option (List (Option Node)))
  | arrayLiteral (token : Token) (elements : Option (List (Option Node)))
  | indexExpression (token : Token) (left : Option Node) (index : Option Node)
  | blockStatement (b : Block)
  | ifExpression (token : Token) (condition : Option Node) (consequence : Option Block)
      (alternative : Option Block)
  | functionLiteral (token : Token) (parameters : Option (List Ident)) (body : Option Block)
      (name : String)
  | hashLiteral (token : Token) (pairs : List (Node × Node))

inductive Block where
  | mk (token : Token) (statements : Option (List (Option Node)))
end

def Block.token : Block → Token
  | .mk t _ => t

def Block.statements : Block → Option (List (Option Node))
  | .mk _ s => s

structure Program where
  statements : List Node

/-! ### `toString()` of the AST classes

JS template-string semantics: interpolating `null` gives `"null"`,
`undefined` gives `"undefined"`; `Array.prototype.join` renders `null`
elements as the empty string. -/

/-- `parameters?.join('')`: `Identifier.toString()` is its `value`. -/
def joinIdents : List Ident → String
  | [] => ""
  | x :: xs => x.value ++ joinIdents xs

/-- The separator `', '` of `join(', ')`. -/
def commaSpace : String := ", "

/-- The separator `''` of `join('')`. -/
def emptySep : String := ""

mutual
/-- The `toString()` methods of the node classes (`HashLiteral` inherits
`Object.prototype.toString`, which renders as `[object Object]`). -/
def nodeToString : Node → String
  | .identifier _ value => value
  | .stringLiteral _ value => value
  | .letStatement token name value =>
      token.literal ++ " " ++ name.value ++ " = " ++
        (match value with
         | some v => nodeToString v
         | none => "")
  | .expressionStatement _ expression =>
      (match expression with
       | some e => nodeToString e
       | none => "")
  | .returnStatement token returnValue =>
      token.literal ++ " " ++
        (match returnValue with
         | some v => nodeToString v
         | none => "")
  | .integerLiteral token _ => token.literal
  | .booleanLiteral token _ => token.literal
  | .prefixExpression _ operator right =>
      "(" ++ operator ++ optNodeToString right ++ ")"
  | .infixExpression _ left operator right =>
      "(" ++ optNodeToString left ++ " " ++ operator ++ " " ++ optNodeToString right ++ ")"
  | .callExpression _ fn args =>
      (match fn with
       | some f => nodeToString f
       | none => "undefined") ++ "(" ++
      (match args with
       | some l => joinOptNodes commaSpace l
       | none => "undefined") ++ ")"
  | .arrayLiteral _ elements =>
      "[" ++
      (match elements with
       | some l => joinOptNodes commaSpace l
       | none => "undefined") ++ "]"
  | .indexExpression _ left index =>
      "(" ++
      (match left with
       | some n => nodeToString n
       | none => "undefined") ++ "[" ++
      (match index with
       | some n => nodeToString n
       | none => "undefined") ++ "])"
  | .blockStatement b => blockToString b
  | .ifExpression _ condition consequence alternative =>
      "if " ++ optNodeToString condition ++ " " ++
      (match consequence with
       | some b => blockToString b
       | none => "null") ++ " " ++
      (match alternative with
       | some b => "else " ++ blockToString b
       | none => "")
  | .functionLiteral token parameters body name =>
      token.literal ++ (if name.length != 0 then "<" ++ name ++ ">" else "") ++ "(" ++
      (match parameters with
       | some ps => joinIdents ps
       | none => "undefined") ++ ") " ++
      (match body with
       | some b => blockToString b
       | none => "null")
  | .hashLiteral _ _ => "[object Object]"

/-- Template-string interpolation of a nullable node. -/
def optNodeToString : Option Node → String
  | some n => nodeToString n
  | none => "null"

/-- `BlockStatement.toString()`. -/
def blockToString : Block → String
  | .mk _ none => ""
  | .mk _ (some statements) => joinOptNodes emptySep statements

/-- `Array.prototype.join(sep)` over nullable nodes. -/
def joinOptNodes (sep : String) : List (Option Node) → String
  | [] => ""
  | [x] =>
      (match x with
       | some n => nodeToString n
       | none => "")
  | x :: xs =>
      (match x with
       | some n => nodeToString n
       | none => "") ++ sep ++ joinOptNodes sep xs
end

/-- `Program.toString()`: `this.statements.join('')`. -/
def programToString (p : Program) : String :=
  (p.statements.map nodeToString).foldl (· ++ ·) ""

/-! ## parser.ts

The Pratt parser.  Parser state is threaded explicitly; every recursive
parse function takes fuel and returns `none` when the fuel runs out (or
when the underlying lexer model diverges, or at the `throw` in
`parseHashLiteral`); a parse failure that the TypeScript code reports by
returning `null` is the *inner* `none` of `Option Node`. -/

/-! The `Precedence` enum (numeric enum members `0`–`7`). -/

namespace Precedence

def LOWEST : Nat := 0
def EQUALS : Nat := 1
def LESS_GREATER : Nat := 2
def SUM : Nat := 3
def PRODUCT : Nat := 4
def PREFIX_OP : Nat := 5
def CALL : Nat := 6
def INDEX : Nat := 7

end Precedence

/-- `parseInt(literal)` restricted to the literals the lexer can put in an
`INT` token (runs of decimal digits): parse the leading digit run, `NaN`
(= `none`) when there is none.  (The sign/whitespace/radix handling of the
full `parseInt` is never exercised by `INT` literals.) -/
def parseIntStr (s : String) : Option ℚ :=
  let ds := s.toList.takeWhile Char.isDigit
  if ds.isEmpty then none
  else some ((ds.foldl (fun acc c => acc * 10 + (c.toNat - 48)) 0 : ℕ) : ℚ)

structure Parser where
  lexer : Lexer
  curToken : Token
  peekToken : Token
  errors : List String

namespace Parser

def pushError (p : Parser) (e : String) : Parser :=
  { p with errors := p.errors ++ [e] }

/-- `Parser.nextToken`: pull one token from the lexer. -/
def nextToken (p : Parser) : Option Parser :=
  match Lexer.nextToken p.lexer with
  | none => none
  | some (t, lx) => some { p with lexer := lx, curToken := p.peekToken, peekToken := t }

def peekTokenIs (p : Parser) (tokenType : TokenType) : Bool :=
  p.peekToken.tokenType == tokenType

def curTokenIs (p : Parser) (tokenType : TokenType) : Bool :=
  p.curToken.tokenType == tokenType

def peekError (p : Parser) (tokenType : TokenType) : Parser :=
  pushError p ("Expected next token to be " ++ tokenType.str ++ ", got " ++
    p.peekToken.tokenType.str ++ " instead")

/-- `expectPeek`: advance on a match (returning `true`), otherwise push a
`peekError` (returning `false`). -/
def expectPeek (p : Parser) (tokenType : TokenType) : Option (Bool × Parser) :=
  if peekTokenIs p tokenType then
    match nextToken p with
    | none => none
    | some p => some (true, p)
  else
    some (false, peekError p tokenType)

def noPrefixParserError (p : Parser) (tokenType : TokenType) : Parser :=
  pushError p ("No prefix parser for " ++ tokenType.str ++ " function")

/-- The `precedences` table (`findPrecedence`; missing entries are `LOWEST`). -/
def findPrecedence (tokenType : TokenType) : Nat :=
  match tokenType with
  | .EQ => Precedence.EQUALS
  | .NOT_EQ => Precedence.EQUALS
  | .LT => Precedence.LESS_GREATER
  | .GT => Precedence.LESS_GREATER
  | .PLUS => Precedence.SUM
  | .MINUS => Precedence.SUM
  | .SLASH => Precedence.PRODUCT
  | .ASTERISK => Precedence.PRODUCT
  | .LPAREN => Precedence.CALL
  | .LBRACKET => Precedence.INDEX
  | _ => Precedence.LOWEST

def peekPrecedence (p : Parser) : Nat :=
  findPrecedence p.peekToken.tokenType

def curPrecedence (p : Parser) : Nat :=
  findPrecedence p.curToken.tokenType

/-- Membership of the `prefixParsers` dispatch table. -/
def hasPrefixFn (t : TokenType) : Bool :=
  t == .INT || t == .TRUE || t == .FALSE || t == .IDENT || t == .BANG ||
  t == .MINUS || t == .LPAREN || t == .LBRACKET || t == .IF ||
  t == .FUNCTION || t == .STRING || t == .LBRACE

/-- Membership of the `infixParsers` dispatch table. -/
def hasInfixFn (t : TokenType) : Bool :=
  t == .PLUS || t == .MINUS || t == .SLASH || t == .ASTERISK || t == .EQ ||
  t == .NOT_EQ || t == .LT || t == .GT || t == .LPAREN || t == .LBRACKET

/-- `parseIntegerLiteral` (not recursive). -/
def parseIntegerLiteral (p : Parser) : Option Node × Parser :=
  let token := p.curToken
  match parseIntStr token.literal with
  | none => (none, pushError p ("could not parse " ++ token.literal ++ " as integer"))
  | some value => (some (.integerLiteral token value), p)

def parseBooleanLiteral (p : Parser) : Option Node × Parser :=
  (some (.booleanLiteral p.curToken (curTokenIs p .TRUE)), p)

def parseIdentifier (p : Parser) : Option Node × Parser :=
  (some (.identifier p.curToken p.curToken.literal), p)

def parseStringLiteral (p : Parser) : Option Node × Parser :=
  (some (.stringLiteral p.curToken p.curToken.literal), p)

/-! The recursive parse functions.  They are mutually recursive through the
dispatch tables and guarded by fuel; to keep kernel reduction cheap they are
packaged as one record of functions `PFns` defined by plain recursion on the
fuel: level `fuel + 1` (`pStep`) performs one step of every parse function,
calling the functions of level `fuel` (`rec`) for every recursive call, and
level `0` is the out-of-fuel bottom `pNone`.  The named wrappers below the
record restore the original signatures. -/

structure PFns where
  parseExpression : Nat → Parser → Option (Option Node × Parser)
  parseExpLoop : Nat → Option Node → Parser → Option (Option Node × Parser)
  runPrefixFn : TokenType → Parser → Option (Option Node × Parser)
  runInfixFn : TokenType → Option Node → Parser → Option (Option Node × Parser)
  parsePrefixExpression : Parser → Option (Option Node × Parser)
  parseGroupExpression : Parser → Option (Option Node × Parser)
  parseArrayLiteral : Parser → Option (Option Node × Parser)
  parseIfExpression : Parser → Option (Option Node × Parser)
  parseFunctionLiteral : Parser → Option (Option Node × Parser)
  parseHashLiteral : Parser → Option (Option Node × Parser)
  parseHashGo : Token → List (Node × Node) → Parser → Option (Option Node × Parser)
  parseInfixExpression : Option Node → Parser → Option (Option Node × Parser)
  parseCallExpression : Option Node → Parser → Option (Option Node × Parser)
  parseIndexExpression : Option Node → Parser → Option (Option Node × Parser)
  parseExpressionList : TokenType → Parser → Option (Option (List (Option Node)) × Parser)
  parseExprListGo : TokenType → List (Option Node) → Parser →
    Option (Option (List (Option Node)) × Parser)
  parseBlockStatement : Parser → Option (Block × Parser)
  parseBlockGo : Token → List (Option Node) → Parser → Option (Block × Parser)
  parseFunctionParameters : Parser → Option (Option (List Ident) × Parser)
  parseFunctionParamsGo : List Ident → Parser → Option (Option (List Ident) × Parser)
  parseStatement : Parser → Option (Option Node × Parser)
  parseLetStatement : Parser → Option (Option Node × Parser)
  parseReturnStatement : Parser → Option (Option Node × Parser)
  parseExpressionStatement : Parser → Option (Option Node × Parser)
  skipSemicolons : Parser → Option Parser
  parseProgramGo : List Node → Parser → Option (Program × Parser)

/-- Out of fuel: every parse function diverges. -/
def pNone : PFns where
  parseExpression := fun _ _ => none
  parseExpLoop := fun _ _ _ => none
  runPrefixFn := fun _ _ => none
  runInfixFn := fun _ _ _ => none
  parsePrefixExpression := fun _ => none
  parseGroupExpression := fun _ => none
  parseArrayLiteral := fun _ => none
  parseIfExpression := fun _ => none
  parseFunctionLiteral := fun _ => none
  parseHashLiteral := fun _ => none
  parseHashGo := fun _ _ _ => none
  parseInfixExpression := fun _ _ => none
  parseCallExpression := fun _ _ => none
  parseIndexExpression := fun _ _ => none
  parseExpressionList := fun _ _ => none
  parseExprListGo := fun _ _ _ => none
  parseBlockStatement := fun _ => none
  parseBlockGo := fun _ _ _ => none
  parseFunctionParameters := fun _ => none
  parseFunctionParamsGo := fun _ _ => none
  parseStatement := fun _ => none
  parseLetStatement := fun _ => none
  parseReturnStatement := fun _ => none
  parseExpressionStatement := fun _ => none
  skipSemicolons := fun _ => none
  parseProgramGo := fun _ _ => none

/-- One step of every parse function; `rec` holds the functions available to
recursive calls. -/
def pStep (rec : PFns) : PFns where
  /- `parseExpression(precedence)`: prefix dispatch, then the infix loop. -/
  parseExpression := fun precedence p =>
    if hasPrefixFn p.curToken.tokenType then
      match rec.runPrefixFn p.curToken.tokenType p with
      | none => none
      | some (left, p) => rec.parseExpLoop precedence left p
    else
      some (none, noPrefixParserError p p.curToken.tokenType)
  /- the `while` loop of `parseExpression` -/
  parseExpLoop := fun precedence left p =>
    if !peekTokenIs p .SEMICOLON && decide (precedence < peekPrecedence p) then
      if hasInfixFn p.peekToken.tokenType then
        let t := p.peekToken.tokenType
        match nextToken p with
        | none => none
        | some p =>
          match rec.runInfixFn t left p with
          | none => none
          | some (left, p) => rec.parseExpLoop precedence left p
      else some (left, p)
    else some (left, p)
  /- dispatch through the `prefixParsers` table (callers guard with `hasPrefixFn`) -/
  runPrefixFn := fun t p =>
    if t == .INT then some (parseIntegerLiteral p)
    else if t == .TRUE || t == .FALSE then some (parseBooleanLiteral p)
    else if t == .IDENT then some (parseIdentifier p)
    else if t == .BANG || t == .MINUS then rec.parsePrefixExpression p
    else if t == .LPAREN then rec.parseGroupExpression p
    else if t == .LBRACKET then rec.parseArrayLiteral p
    else if t == .IF then rec.parseIfExpression p
    else if t == .FUNCTION then rec.parseFunctionLiteral p
    else if t == .STRING then some (parseStringLiteral p)
    else if t == .LBRACE then rec.parseHashLiteral p
    else none
  /- dispatch through the `infixParsers` table (callers guard with `hasInfixFn`) -/
  runInfixFn := fun t left p =>
    if t == .LPAREN then rec.parseCallExpression left p
    else if t == .LBRACKET then rec.parseIndexExpression left p
    else rec.parseInfixExpression left p
  parsePrefixExpression := fun p =>
    let token := p.curToken
    let operator := token.literal
    match nextToken p with
    | none => none
    | some p =>
      match rec.parseExpression Precedence.PREFIX_OP p with
      | none => none
      | some (right, p) => some (some (.prefixExpression token operator right), p)
  parseGroupExpression := fun p =>
    match nextToken p with
    | none => none
    | some p =>
      match rec.parseExpression Precedence.LOWEST p with
      | none => none
      | some (exp, p) =>
        match expectPeek p .RPAREN with
        | none => none
        | some (ok, p) => if !ok then some (none, p) else some (exp, p)
  parseArrayLiteral := fun p =>
    let token := p.curToken
    match rec.parseExpressionList .RBRACKET p with
    | none => none
    | some (elements, p) => some (some (.arrayLiteral token elements), p)
  parseIfExpression := fun p =>
    let token := p.curToken
    match expectPeek p .LPAREN with
    | none => none
    | some (ok, p) =>
    if !ok then some (none, p) else
    match nextToken p with
    | none => none
    | some p =>
    match rec.parseExpression Precedence.LOWEST p with
    | none => none
    | some (condition, p) =>
    match expectPeek p .RPAREN with
    | none => none
    | some (ok, p) =>
    if !ok then some (none, p) else
    match expectPeek p .LBRACE with
    | none => none
    | some (ok, p) =>
    if !ok then some (none, p) else
    match rec.parseBlockStatement p with
    | none => none
    | some (consequence, p) =>
    if peekTokenIs p .ELSE then
      match nextToken p with
      | none => none
      | some p =>
      match expectPeek p .LBRACE with
      | none => none
      | some (ok, p) =>
      if !ok then some (none, p) else
      match rec.parseBlockStatement p with
      | none => none
      | some (alternative, p) =>
        some (some (.ifExpression token condition (some consequence) (some alternative)), p)
    else
      some (some (.ifExpression token condition (some consequence) none), p)
  parseFunctionLiteral := fun p =>
    let token := p.curToken
    match expectPeek p .LPAREN with
    | none => none
    | some (ok, p) =>
    if !ok then some (none, p) else
    match rec.parseFunctionParameters p with
    | none => none
    | some (parameters, p) =>
    match expectPeek p .LBRACE with
    | none => none
    | some (ok, p) =>
    if !ok then some (none, p) else
    match rec.parseBlockStatement p with
    | none => none
    | some (body, p) => some (some (.functionLiteral token parameters (some body) ""), p)
  parseHashLiteral := fun p => rec.parseHashGo p.curToken [] p
  /- the `while (!peekTokenIs(RBRACE))` loop of `parseHashLiteral` (the
  `throw new Error` on a `null` key or value is modelled as the outer `none`) -/
  parseHashGo := fun token pairs p =>
    if !peekTokenIs p .RBRACE then
      match nextToken p with
      | none => none
      | some p =>
      match rec.parseExpression Precedence.LOWEST p with
      | none => none
      | some (key, p) =>
      match expectPeek p .COLON with
      | none => none
      | some (ok, p) =>
      if !ok then some (none, p) else
      match nextToken p with
      | none => none
      | some p =>
      match rec.parseExpression Precedence.LOWEST p with
      | none => none
      | some (value, p) =>
      match key, value with
      | some key, some value =>
        let pairs := pairs ++ [(key, value)]
        if !peekTokenIs p .RBRACE then
          match expectPeek p .COMMA with
          | none => none
          | some (ok, p) =>
            if !ok then some (none, p) else rec.parseHashGo token pairs p
        else rec.parseHashGo token pairs p
      | _, _ => none
    else
      match expectPeek p .RBRACE with
      | none => none
      | some (ok, p) =>
        if !ok then some (none, p) else some (some (.hashLiteral token pairs), p)
  parseInfixExpression := fun left p =>
    let token := p.curToken
    let operator := token.literal
    let precedence := curPrecedence p
    match nextToken p with
    | none => none
    | some p =>
      match rec.parseExpression precedence p with
      | none => none
      | some (right, p) => some (some (.infixExpression token left operator right), p)
  parseCallExpression := fun expression p =>
    let token := p.curToken
    match rec.parseExpressionList .RPAREN p with
    | none => none
    | some (args, p) => some (some (.callExpression token expression args), p)
  parseIndexExpression := fun left p =>
    let token := p.curToken
    match nextToken p with
    | none => none
    | some p =>
    match rec.parseExpression Precedence.LOWEST p with
    | none => none
    | some (index, p) =>
    match expectPeek p .RBRACKET with
    | none => none
    | some (ok, p) =>
      if !ok then some (none, p) else some (some (.indexExpression token left index), p)
  parseExpressionList := fun endType p =>
    if peekTokenIs p endType then
      match nextToken p with
      | none => none
      | some p => some (some [], p)
    else
      match nextToken p with
      | none => none
      | some p =>
      match rec.parseExpression Precedence.LOWEST p with
      | none => none
      | some (e, p) => rec.parseExprListGo endType [e] p
  /- the `while (peekTokenIs(COMMA))` loop of `parseExpressionList` -/
  parseExprListGo := fun endType args p =>
    if peekTokenIs p .COMMA then
      match nextToken p with
      | none => none
      | some p =>
      match nextToken p with
      | none => none
      | some p =>
      match rec.parseExpression Precedence.LOWEST p with
      | none => none
      | some (e, p) => rec.parseExprListGo endType (args ++ [e]) p
    else
      match expectPeek p endType with
      | none => none
      | some (ok, p) =>
        if !ok then some (none, p) else some (some args, p)
  parseBlockStatement := fun p =>
    let token := p.curToken
    match nextToken p with
    | none => none
    | some p => rec.parseBlockGo token [] p
  /- the statement loop of `parseBlockStatement` -/
  parseBlockGo := fun token statements p =>
    if !curTokenIs p .RBRACE && !curTokenIs p .EOF then
      match rec.parseStatement p with
      | none => none
      | some (statement, p) =>
        let statements := match statement with
          | some s => statements ++ [some s]
          | none => statements
        match nextToken p with
        | none => none
        | some p => rec.parseBlockGo token statements p
    else some (.mk token statements, p)
  parseFunctionParameters := fun p =>
    if peekTokenIs p .RPAREN then
      match nextToken p with
      | none => none
      | some p => some (some [], p)
    else
      match nextToken p with
      | none => none
      | some p =>
        let token := p.curToken
        rec.parseFunctionParamsGo [⟨token, token.literal⟩] p
  /- the `while (peekTokenIs(COMMA))` loop of `parseFunctionParameters` -/
  parseFunctionParamsGo := fun parameters p =>
    if peekTokenIs p .COMMA then
      match nextToken p with
      | none => none
      | some p =>
      match nextToken p with
      | none => none
      | some p =>
        let innerToken := p.curToken
        rec.parseFunctionParamsGo (parameters ++ [⟨innerToken, innerToken.literal⟩]) p
    else
      match expectPeek p .RPAREN with
      | none => none
      | some (ok, p) =>
        if !ok then some (none, p) else some (some parameters, p)
  parseStatement := fun p =>
    match p.curToken.tokenType with
    | .LET => rec.parseLetStatement p
    | .RETURN => rec.parseReturnStatement p
    | _ => rec.parseExpressionStatement p
  parseLetStatement := fun p =>
    let token := p.curToken
    match expectPeek p .IDENT with
    | none => none
    | some (ok, p) =>
    if !ok then some (none, p) else
    let name : Ident := ⟨p.curToken, p.curToken.literal⟩
    match expectPeek p .ASSIGN with
    | none => none
    | some (ok, p) =>
    if !ok then some (none, p) else
    match nextToken p with
    | none => none
    | some p =>
    match rec.parseExpression Precedence.LOWEST p with
    | none => none
    | some (value, p) =>
    if peekTokenIs p .SEMICOLON then
      match nextToken p with
      | none => none
      | some p => some (some (.letStatement token name value), p)
    else some (some (.letStatement token name value), p)
  parseReturnStatement := fun p =>
    let token := p.curToken
    match nextToken p with
    | none => none
    | some p =>
    match rec.parseExpression Precedence.LOWEST p with
    | none => none
    | some (returnValue, p) =>
    match rec.skipSemicolons p with
    | none => none
    | some p => some (some (.returnStatement token returnValue), p)
  /- the `while (peekTokenIs(SEMICOLON))` loop of `parseReturnStatement` -/
  skipSemicolons := fun p =>
    if peekTokenIs p .SEMICOLON then
      match nextToken p with
      | none => none
      | some p => rec.skipSemicolons p
    else some p
  parseExpressionStatement := fun p =>
    let token := p.curToken
    match rec.parseExpression Precedence.LOWEST p with
    | none => none
    | some (expression, p) =>
    if peekTokenIs p .SEMICOLON then
      match nextToken p with
      | none => none
      | some p => some (some (.expressionStatement token expression), p)
    else some (some (.expressionStatement token expression), p)
  /- the `while (curToken.tokenType !== EOF)` loop of `parseProgram` -/
  parseProgramGo := fun statements p =>
    if !curTokenIs p .EOF then
      match rec.parseStatement p with
      | none => none
      | some (statement, p) =>
        let statements := match statement with
          | some s => statements ++ [s]
          | none => statements
        match nextToken p with
        | none => none
        | some p => rec.parseProgramGo statements p
    else some (⟨statements⟩, p)

/-- The parse functions at a given fuel level. -/
def pFns : Nat → PFns
  | 0 => pNone
  | fuel + 1 => pStep (pFns fuel)

def parseExpression (fuel : Nat) (precedence : Nat) (p : Parser) :
    Option (Option Node × Parser) :=
  (pFns fuel).parseExpression precedence p

def parseStatement (fuel : Nat) (p : Parser) : Option (Option Node × Parser) :=
  (pFns fuel).parseStatement p

def parseBlockStatement (fuel : Nat) (p : Parser) : Option (Block × Parser) :=
  (pFns fuel).parseBlockStatement p

def parseProgram (fuel : Nat) (p : Parser) : Option (Program × Parser) :=
  (pFns fuel).parseProgramGo [] p

/-- The `Parser` constructor: two initial `nextToken()` calls. -/
def newParser (lexer : Lexer) : Option Parser :=
  let p : Parser := { lexer := lexer, curToken := ⟨.ILLEGAL, ""⟩,
                      peekToken := ⟨.ILLEGAL, ""⟩, errors := [] }
  match nextToken p with
  | none => none
  | some p => nextToken p

end Parser

/-- End-to-end `parse`: lexer + parser on a source string, yielding the
program and the accumulated parse errors. -/
def parseSource (fuel : Nat) (source : String) : Option (Program × List String) :=
  match Parser.newParser (Lexer.newLexer source.toList) with
  | none => none
  | some p =>
    match Parser.parseProgram fuel p with
    | none => none
    | some (program, p) => some (program, p.errors)

/-! ## objects.ts

Runtime objects.  Every object carries the reference id `ref` of its
allocation (JS `===` on class instances is reference equality, modelled by
`jsIs` below); ids are handed out by the monotone counter
`EvalState.nextRef`, the canonical module-level objects `TRUE` (id 0),
`FALSE` (id 1), `M_NULL` (id 2) and the five builtin function objects
(ids 3–7) are pre-allocated.  An `MArray` holds the id of the mutable JS
array backing it (`EvalState.arrays`); an `MFunction` holds the id of its
captured environment frame (`EvalState.frames`).  An `MHash` holds its
(immutable after construction) insertion-ordered map from hash keys to
`HashPair`s, a pair of the original key object and the value
(`Option` because the unchecked `value!!` can be `null` at runtime). -/

inductive BuiltinName where
  | len | push | first | last | rest
  deriving DecidableEq

inductive MObject where
  | MInteger (value : ℚ) (ref : Nat)
  | MBoolean (value : Bool) (ref : Nat)
  | MString (value : String) (ref : Nat)
  | MReturnValue (value : MObject) (ref : Nat)
  | MError (message : String) (ref : Nat)
  | MNull (ref : Nat)
  | MFunction (parameters : Option (List Ident)) (body : Option Block) (env : Nat) (ref : Nat)
  | MArray (elements : Nat) (ref : Nat)
  | MHash (pairs : List (String × MObject × Option MObject)) (ref : Nat)
  | MBuiltinFunction (name : BuiltinName) (ref : Nat)

namespace MObject

/-- The reference id of an object (allocation identity). -/
def refId : MObject → Nat
  | .MInteger _ r => r
  | .MBoolean _ r => r
  | .MString _ r => r
  | .MReturnValue _ r => r
  | .MError _ r => r
  | .MNull r => r
  | .MFunction _ _ _ r => r
  | .MArray _ r => r
  | .MHash _ r => r
  | .MBuiltinFunction _ r => r

end MObject

/-- JS `===` on objects: reference equality.  Ref ids are globally unique
(one monotone counter), so comparing ids is exact. -/
def jsIs (a b : MObject) : Bool :=
  a.refId == b.refId

/-- `typeDesc` from objects.ts: `'null'` for `null`, otherwise the
constructor name of the object's class. -/
def typeDesc : Option MObject → String
  | none => "null"
  | some (.MInteger _ _) => "MInteger"
  | some (.MBoolean _ _) => "MBoolean"
  | some (.MString _ _) => "MString"
  | some (.MReturnValue _ _) => "MReturnValue"
  | some (.MError _ _) => "MError"
  | some (.MNull _) => "MNull"
  | some (.MFunction _ _ _ _) => "MFunction"
  | some (.MArray _ _) => "MArray"
  | some (.MHash _ _) => "MHash"
  | some (.MBuiltinFunction _ _) => "MBuiltinFunction"

/-- The canonical objects of evaluator.ts / objects.ts. -/
def TRUE : MObject := .MBoolean true 0

def FALSE : MObject := .MBoolean false 1

def M_NULL : MObject := .MNull 2

def NULL : MObject := M_NULL

/-- `instanceof MValue` (the common superclass of `MInteger`, `MBoolean`,
`MString`). -/
def isMValue : MObject → Bool
  | .MInteger _ _ => true
  | .MBoolean _ _ => true
  | .MString _ _ => true
  | _ => false

def isMInteger : MObject → Bool
  | .MInteger _ _ => true
  | _ => false

def isMString : MObject → Bool
  | .MString _ _ => true
  | _ => false

/-- `isError` from evaluator.ts (false on `null`). -/
def isError : Option MObject → Bool
  | some (.MError _ _) => true
  | _ => false

/-- JS `Number.prototype.toString` on the rationals this model constructs:
exact on integers; the non-integer rendering (JS would print a decimal
expansion) is never exercised by the theorems of this file. -/
def mNumToString (q : ℚ) : String :=
  if q.den == 1 then toString q.num else toString q

namespace MObject

/-- `MValue.hashKey()` = `this.toString()` of the three value classes;
never called on other classes (callers guard with `instanceof MValue`). -/
def hashKey : MObject → String
  | .MInteger v _ => "MInteger(value=" ++ mNumToString v ++ ")"
  | .MBoolean b _ => "MBoolean(value=" ++ (if b then "true" else "false") ++ ")"
  | .MString s _ => "MString(value=" ++ s ++ ")"
  | _ => ""

/-- `MInteger.getValue()` (callers guard with `instanceof MInteger`). -/
def intValue : MObject → ℚ
  | .MInteger v _ => v
  | _ => 0

/-- `MString.getValue()` (callers guard with `instanceof MString`). -/
def strValue : MObject → String
  | .MString s _ => s
  | _ => ""

/-- The backing-array id of an `MArray` (callers guard with `instanceof MArray`). -/
def arrayId : MObject → Nat
  | .MArray id _ => id
  | _ => 0

/-- The pairs of an `MHash` (callers guard with `instanceof MHash`). -/
def hashPairs : MObject → List (String × MObject × Option MObject)
  | .MHash ps _ => ps
  | _ => []

end MObject

/-! ## The evaluator state: heaps for environments and JS arrays -/

/-- One `Environment`: the insertion-ordered `store` map (`Option MObject`
values: JS `null` is storable) and the index of the `outer` environment. -/
structure Frame where
  store : List (String × Option MObject)
  outer : Option Nat

structure EvalState where
  frames : List Frame
  arrays : List (List (Option MObject))
  nextRef : Nat

/-- The state after module initialisation: refs 0–7 are taken by
`TRUE`, `FALSE`, `M_NULL` and the five builtins. -/
def initState : EvalState := ⟨[], [], 8⟩

/-- Allocate a fresh reference id. -/
def alloc (st : EvalState) : Nat × EvalState :=
  (st.nextRef, { st with nextRef := st.nextRef + 1 })

/-- JS `Map.prototype.set`: overwrite in place keeping insertion order,
append when the key is new. -/
def mapSet {α : Type} (m : List (String × α)) (k : String) (v : α) : List (String × α) :=
  if m.any (fun p => p.1 == k) then m.map (fun p => if p.1 == k then (k, v) else p)
  else m ++ [(k, v)]

/-- JS `Map.prototype.get` (`none` = `undefined`). -/
def mapGet {α : Type} (m : List (String × α)) (k : String) : Option α :=
  (m.find? (fun p => p.1 == k)).map (fun p => p.2)

/-- `Environment.newEnvironment()`: allocate a fresh frame. -/
def newEnvironment (st : EvalState) : Nat × EvalState :=
  (st.frames.length, { st with frames := st.frames ++ [⟨[], none⟩] })

/-- `Environment.newEnclosedEnvironment(outer)`. -/
def newEnclosedEnvironment (outer : Nat) (st : EvalState) : Nat × EvalState :=
  (st.frames.length, { st with frames := st.frames ++ [⟨[], some outer⟩] })

/-- `Environment.set` (in-place mutation of the frame's map). -/
def envSet (st : EvalState) (env : Nat) (name : String) (value : Option MObject) : EvalState :=
  match st.frames.get? env with
  | none => st
  | some fr => { st with frames := st.frames.set env { fr with store := mapSet fr.store name value } }

/-- The outer-chain walk of `Environment.get`; the fuel bounds the chain
length (chains are acyclic, every frame's `outer` was allocated earlier). -/
def envGetGo (st : EvalState) : Nat → Nat → String → Option MObject
  | 0, _, _ => none
  | f + 1, env, name =>
    match st.frames.get? env with
    | none => none
    | some fr =>
      match mapGet fr.store name with
      | some obj => obj
      | none =>
        match fr.outer with
        | some outer => envGetGo st f outer name
        | none => none

/-- `Environment.get` (`none` = JS `null`, returned both for a missing name
and for a stored `null`). -/
def envGet (st : EvalState) (env : Nat) (name : String) : Option MObject :=
  envGetGo st (st.frames.length + 1) env name

/-- The `builtins` map of objects.ts (module-level singletons, ids 3–7). -/
def builtinsGet (name : String) : Option MObject :=
  if name == "len" then some (.MBuiltinFunction .len 3)
  else if name == "push" then some (.MBuiltinFunction .push 4)
  else if name == "first" then some (.MBuiltinFunction .first 5)
  else if name == "last" then some (.MBuiltinFunction .last 6)
  else if name == "rest" then some (.MBuiltinFunction .rest 7)
  else none

/-! ## evaluator.ts -/

/-- The result of one evaluator call: `ok` is a returned `MObject | null`;
`thrown` is a JS exception (the trailing `throw` of `evaluateNode`, or
iterating a `null` argument list); `diverge` is the model's out-of-fuel
marker (the JS code simply does not terminate there). -/
inductive Res (α : Type) where
  | ok (value : α)
  | diverge
  | thrown

def newError (message : String) (st : EvalState) : MObject × EvalState :=
  let (r, st) := alloc st
  (.MError message r, st)

def newInteger (v : ℚ) (st : EvalState) : MObject × EvalState :=
  let (r, st) := alloc st
  (.MInteger v r, st)

def toMonkey (bool : Bool) : MObject :=
  if bool then TRUE else FALSE

/-- `evalBangOperatorExpression`: the `switch` compares by `===` against
the canonical singletons. -/
def evalBangOperatorExpression (right : MObject) : MObject :=
  if jsIs right TRUE then FALSE
  else if jsIs right FALSE then TRUE
  else if jsIs right NULL then TRUE
  else FALSE

def evalMinusPrefixOperatorExpression (right : MObject) (st : EvalState) : MObject × EvalState :=
  match right with
  | .MInteger v _ => newInteger (-v) st
  | _ => newError ("unknown operator: -" ++ typeDesc (some right)) st

/-- `evalIntegerInfixExpression`: JS number arithmetic on the two values
(note that `/` is plain JS division, not an integer division). -/
def evalIntegerInfixExpression (operator : String) (left right : MObject) (st : EvalState) :
    MObject × EvalState :=
  let l := left.intValue
  let r := right.intValue
  if operator == "+" then newInteger (l + r) st
  else if operator == "-" then newInteger (l - r) st
  else if operator == "*" then newInteger (l * r) st
  else if operator == "/" then newInteger (l / r) st
  else if operator == "<" then (toMonkey (decide (l < r)), st)
  else if operator == ">" then (toMonkey (decide (l > r)), st)
  else if operator == "==" then (toMonkey (l == r), st)
  else if operator == "!=" then (toMonkey (l != r), st)
  else newError ("unknown operator: " ++ typeDesc (some left) ++ " " ++ operator ++ " " ++
    typeDesc (some right)) st

/-- `evalInfixExpression`: note that the `==`/`!=` identity branch comes
before the string branch, so `==` on two `MString`s is the JS `===` of the
two object references. -/
def evalInfixExpression (operator : String) (left right : MObject) (st : EvalState) :
    MObject × EvalState :=
  if isMInteger left && isMInteger right then
    evalIntegerInfixExpression operator left right st
  else if operator == "==" then (toMonkey (jsIs left right), st)
  else if operator == "!=" then (toMonkey (!jsIs left right), st)
  else if typeDesc (some left) != typeDesc (some right) then
    newError ("type mismatch: " ++ typeDesc (some left) ++ " " ++ operator ++ " " ++
      typeDesc (some right)) st
  else if isMString left && isMString right && operator == "+" then
    let (r, st) := alloc st
    (.MString (left.strValue ++ right.strValue) r, st)
  else
    newError ("unknown operator: " ++ typeDesc (some left) ++ " " ++ operator ++ " " ++
      typeDesc (some right)) st

/-- JS `elements[i]` on a number index: the element for an in-range integer
index (`Option` because elements can be `null`), `undefined` (merged with
`null`) otherwise. -/
def jsArrayGet (elements : List (Option MObject)) (i : ℚ) : Option MObject :=
  if i.den == 1 && decide (0 ≤ i.num) && decide (i.num.toNat < elements.length) then
    elements.getD i.num.toNat none
  else none

/-- `evalArrayIndexExpression` (the array's elements live in the state's
array heap). -/
def evalArrayIndexExpression (st : EvalState) (array index : MObject) : Option MObject :=
  let elements := st.arrays.getD array.arrayId []
  let i := index.intValue
  let max : ℚ := (elements.length : ℚ) - 1
  if decide (i < 0) || decide (i > max) then some NULL
  else jsArrayGet elements i

/-- `evalHashIndexExpression`. -/
def evalHashIndexExpression (hash : MObject) (index : Option MObject) (st : EvalState) :
    Option MObject × EvalState :=
  match index with
  | some idx =>
    if isMValue idx then
      match mapGet hash.hashPairs idx.hashKey with
      | some pair => (pair.2, st)
      | none => (some NULL, st)
    else
      let (e, st) := newError ("unusable as a hash key: " ++ typeDesc (some idx)) st
      (some e, st)
  | none =>
    let (e, st) := newError ("unusable as a hash key: " ++ typeDesc none) st
    (some e, st)

/-- `isTruthy` (the local function of the `IfExpression` case): identity
against the canonical singletons. -/
def isTruthy (condition : MObject) : Bool :=
  if jsIs condition NULL then false
  else if jsIs condition TRUE then true
  else !jsIs condition FALSE

/-- `ifNotError`: pass a non-`null` non-`Error` object to the continuation,
short-circuit everything else. -/
def ifNotError (r : Res (Option MObject) × EvalState)
    (body : MObject → EvalState → Res (Option MObject) × EvalState) :
    Res (Option MObject) × EvalState :=
  match r with
  | (.ok (some obj), st) => if isError (some obj) then (.ok (some obj), st) else body obj st
  | other => other

/-! The builtin function bodies (objects.ts). -/

def PUSH : String := "push"

def FIRST : String := "first"

def LAST : String := "last"

def REST : String := "rest"

def argSizeCheck (expectedSize : Nat) (args : List (Option MObject)) (st : EvalState)
    (body : List (Option MObject) → EvalState → Option MObject × EvalState) :
    Option MObject × EvalState :=
  let length := args.length
  if length != expectedSize then
    let (e, st) := newError ("wrong number of arguments. got=" ++ toString length ++
      ", want=" ++ toString expectedSize) st
    (some e, st)
  else body args st

def arrayCheck (builtinName : String) (args : List (Option MObject)) (st : EvalState)
    (body : MObject → Nat → EvalState → Option MObject × EvalState) :
    Option MObject × EvalState :=
  match args.getD 0 none with
  | some (.MArray id ref) => body (.MArray id ref) ((st.arrays.getD id []).length) st
  | first =>
    let (e, st) := newError ("argument to '" ++ builtinName ++ "' must be ARRAY, got " ++
      typeDesc first) st
    (some e, st)

/-- The builtin implementations; `push` mutates the backing array of its
argument in place and wraps the same backing array in a fresh `MArray`. -/
def applyBuiltin (name : BuiltinName) (args : List (Option MObject)) (st : EvalState) :
    Option MObject × EvalState :=
  match name with
  | .len => argSizeCheck 1 args st (fun it st =>
      match it.getD 0 none with
      | some (.MString s _) =>
        let (o, st) := newInteger (s.length : ℚ) st
        (some o, st)
      | some (.MArray id _) =>
        let (o, st) := newInteger (((st.arrays.getD id []).length : ℚ)) st
        (some o, st)
      | arg =>
        let (e, st) := newError ("argument to 'len' not supported, got " ++ typeDesc arg) st
        (some e, st))
  | .push => argSizeCheck 2 args st (fun it st =>
      arrayCheck PUSH it st (fun array _ st =>
        let id := array.arrayId
        let elements := st.arrays.getD id []
        let st := { st with arrays := st.arrays.set id (elements ++ [args.getD 1 none]) }
        let (r, st) := alloc st
        (some (.MArray id r), st)))
  | .first => argSizeCheck 1 args st (fun it st =>
      arrayCheck FIRST it st (fun array length st =>
        if length > 0 then ((st.arrays.getD array.arrayId []).getD 0 none, st)
        else (some M_NULL, st)))
  | .last => argSizeCheck 1 args st (fun it st =>
      arrayCheck LAST it st (fun array length st =>
        if length > 0 then ((st.arrays.getD array.arrayId []).getD (length - 1) none, st)
        else (some M_NULL, st)))
  | .rest => argSizeCheck 1 args st (fun it st =>
      arrayCheck REST it st (fun array length st =>
        if length > 0 then
          let newList := (st.arrays.getD array.arrayId []).drop 1
          let id := st.arrays.length
          let st := { st with arrays := st.arrays ++ [newList] }
          let (r, st) := alloc st
          (some (.MArray id r), st)
        else (some M_NULL, st)))

/-- `extendFunctionEnv` parameter binding: `env.set(identifier.value, args[i]!!)`;
an out-of-range `args[i]` is `undefined`, and a map entry holding
`undefined` is observably absent to `Environment.get`, so no entry is made. -/
def bindParams (ps : List Ident) (i : Nat) (args : List (Option MObject)) (env : Nat)
    (st : EvalState) : EvalState :=
  match ps with
  | [] => st
  | identifier :: rest =>
    let st := match args.get? i with
      | some v => envSet st env identifier.value v
      | none => st
    bindParams rest (i + 1) args env st

def extendFunctionEnv (fn : MObject) (args : List (Option MObject)) (st : EvalState) :
    Nat × EvalState :=
  match fn with
  | .MFunction parameters _ env _ =>
    let (newEnv, st) := newEnclosedEnvironment env st
    match parameters with
    | none => (newEnv, st)
    | some ps => (newEnv, bindParams ps 0 args newEnv st)
  | _ => newEnvironment st

/-! The recursive evaluator.  `evaluateNode` is the one fuel-recursive
function (`evaluateNodeFn` below); the statement/argument/pair loops and
`applyFunction` take the evaluator for the next-smaller fuel as the
parameter `evalN` and recurse structurally on their lists, exactly like the
`for` loops of the source. -/

/-- `applyFunction`. -/
def applyFunction (evalN : Option Node → Nat → EvalState → Res (Option MObject) × EvalState)
    (fn : MObject) (args : List (Option MObject)) (st : EvalState) :
    Res (Option MObject) × EvalState :=
  match fn with
  | .MFunction parameters body env ref =>
    let (extendEnv, st) := extendFunctionEnv (.MFunction parameters body env ref) args st
    match evalN (body.map Node.blockStatement) extendEnv st with
    | (.ok evaluated, st) =>
      match evaluated with
      | some (.MReturnValue v _) => (.ok (some v), st)
      | _ => (.ok evaluated, st)
    | other => other
  | .MBuiltinFunction name _ =>
    let (result, st) := applyBuiltin name args st
    match result with
    | none => (.ok (some NULL), st)
    | some r => (.ok (some r), st)
  | _ =>
    let (e, st) := newError ("not a function: " ++ typeDesc (some fn)) st
    (.ok (some e), st)

/-- The statement loop of `evaluate(Program, env)`: unwrap a `ReturnValue`
(one layer), return an `Error`, otherwise keep the last result. -/
def evalProgramGo (evalN : Option Node → Nat → EvalState → Res (Option MObject) × EvalState)
    (statements : List Node) (result : Option MObject) (env : Nat) (st : EvalState) :
    Res (Option MObject) × EvalState :=
  match statements with
  | [] => (.ok result, st)
  | statement :: rest =>
    match evalN (some statement) env st with
    | (.ok result, st) =>
      match result with
      | some (.MReturnValue v _) => (.ok (some v), st)
      | some (.MError m r) => (.ok (some (.MError m r)), st)
      | _ => evalProgramGo evalN rest result env st
    | other => other

/-- The statement loop of `evalBlockStatement`: propagate `ReturnValue` and
`Error` unwrapped. -/
def evalBlockGo (evalN : Option Node → Nat → EvalState → Res (Option MObject) × EvalState)
    (statements : List (Option Node)) (result : Option MObject) (env : Nat) (st : EvalState) :
    Res (Option MObject) × EvalState :=
  match statements with
  | [] => (.ok result, st)
  | statement :: rest =>
    match evalN statement env st with
    | (.ok result, st) =>
      if (match result with
          | some (.MReturnValue _ _) => true
          | some (.MError _ _) => true
          | _ => false) then
        (.ok result, st)
      else evalBlockGo evalN rest result env st
    | other => other

/-- The argument loop of `evalExpressions`: left to right, and the first
`Error` comes back alone as a one-element list. -/
def evalExpressionsGo (evalN : Option Node → Nat → EvalState → Res (Option MObject) × EvalState)
    (args : List (Option Node)) (evalList : List (Option MObject)) (env : Nat) (st : EvalState) :
    Res (List (Option MObject)) × EvalState :=
  match args with
  | [] => (.ok evalList, st)
  | argument :: rest =>
    match evalN argument env st with
    | (.ok evaluated, st) =>
      if isError evaluated then (.ok [evaluated], st)
      else evalExpressionsGo evalN rest (evalList ++ [evaluated]) env st
    | (.diverge, st) => (.diverge, st)
    | (.thrown, st) => (.thrown, st)

/-- `evalExpressions` (iterating `args!!` when `args` is `null` throws). -/
def evalExpressions (evalN : Option Node → Nat → EvalState → Res (Option MObject) × EvalState)
    (args : Option (List (Option Node))) (env : Nat) (st : EvalState) :
    Res (List (Option MObject)) × EvalState :=
  match args with
  | none => (.thrown, st)
  | some list => evalExpressionsGo evalN list [] env st

/-- The pair loop of the `HashLiteral` case, ending in `new MHash(pairs)`. -/
def evalHashGo (evalN : Option Node → Nat → EvalState → Res (Option MObject) × EvalState)
    (pairs : List (Node × Node)) (acc : List (String × MObject × Option MObject)) (env : Nat)
    (st : EvalState) : Res (Option MObject) × EvalState :=
  match pairs with
  | [] =>
    let (r, st) := alloc st
    (.ok (some (.MHash acc r)), st)
  | (keyNode, valueNode) :: rest =>
    match evalN (some keyNode) env st with
    | (.ok key, st) =>
      if isError key then (.ok key, st)
      else
        match key with
        | some keyObj =>
          if isMValue keyObj then
            match evalN (some valueNode) env st with
            | (.ok value, st) =>
              if isError value then (.ok value, st)
              else evalHashGo evalN rest (mapSet acc keyObj.hashKey (keyObj, value)) env st
            | other => other
          else
            let (e, st) := newError ("unusable as hash key: " ++ typeDesc (some keyObj)) st
            (.ok (some e), st)
        | none =>
          let (e, st) := newError ("unusable as hash key: " ++ typeDesc none) st
          (.ok (some e), st)
    | other => other

/-- One step of `evaluateNode`: the full `if (node instanceof …)` cascade,
with `evalN` the evaluator available for recursive calls.  `evaluateNode`
on `null` (no `instanceof` matches) reaches the trailing `throw`. -/
def evalStep (evalN : Option Node → Nat → EvalState → Res (Option MObject) × EvalState)
    (node : Option Node) (env : Nat) (st : EvalState) : Res (Option MObject) × EvalState :=
  match node with
  | none => (.thrown, st)
  | some n =>
    match n with
    | .identifier _ value =>
      match envGet st env value with
      | some v => (.ok (some v), st)
      | none =>
        match builtinsGet value with
        | some builtin => (.ok (some builtin), st)
        | none =>
          let (e, st) := newError ("identifier not found: " ++ value) st
          (.ok (some e), st)
    | .integerLiteral _ value =>
      let (o, st) := newInteger value st
      (.ok (some o), st)
    | .infixExpression _ left operator right =>
      ifNotError (evalN left env st) (fun l st =>
        ifNotError (evalN right env st) (fun r st =>
          let (o, st) := evalInfixExpression operator l r st
          (.ok (some o), st)))
    | .blockStatement b =>
      match b.statements with
      | none => (.ok none, st)
      | some statements => evalBlockGo evalN statements none env st
    | .expressionStatement _ expression => evalN expression env st
    | .ifExpression _ condition consequence alternative =>
      ifNotError (evalN condition env st) (fun c st =>
        if isTruthy c then evalN (consequence.map Node.blockStatement) env st
        else
          match alternative with
          | some alt =>
            (match alt.statements with
             | none => (.ok none, st)
             | some statements => evalBlockGo evalN statements none env st)
          | none => (.ok (some NULL), st))
    | .callExpression _ fn args =>
      ifNotError (evalN fn env st) (fun f st =>
        match evalExpressions evalN args env st with
        | (.ok argsList, st) =>
          if argsList.length == 1 && isError (argsList.getD 0 none) then
            (.ok (argsList.getD 0 none), st)
          else applyFunction evalN f argsList st
        | (.diverge, st) => (.diverge, st)
        | (.thrown, st) => (.thrown, st))
    | .returnStatement _ returnValue =>
      ifNotError (evalN returnValue env st) (fun value st =>
        let (r, st) := alloc st
        (.ok (some (.MReturnValue value r)), st))
    | .prefixExpression _ operator right =>
      ifNotError (evalN right env st) (fun r st =>
        if operator == "!" then (.ok (some (evalBangOperatorExpression r)), st)
        else if operator == "-" then
          let (o, st) := evalMinusPrefixOperatorExpression r st
          (.ok (some o), st)
        else
          let (e, st) := newError ("Unknown operator: " ++ operator ++ typeDesc (some r)) st
          (.ok (some e), st))
    | .booleanLiteral _ value => (.ok (some (toMonkey value)), st)
    | .letStatement _ name value =>
      ifNotError (evalN value env st) (fun v st =>
        let st := envSet st env name.value (some v)
        (.ok (some v), st))
    | .functionLiteral _ parameters body _ =>
      let (r, st) := alloc st
      (.ok (some (.MFunction parameters body env r)), st)
    | .stringLiteral _ value =>
      let (r, st) := alloc st
      (.ok (some (.MString value r)), st)
    | .indexExpression _ left index =>
      match evalN left env st with
      | (.ok left, st) =>
        if isError left then (.ok left, st)
        else
          match evalN index env st with
          | (.ok index, st) =>
            if isError index then (.ok index, st)
            else
              match left, index with
              | some (.MArray id ref), some (.MInteger v iref) =>
                (.ok (evalArrayIndexExpression st (.MArray id ref) (.MInteger v iref)), st)
              | some (.MHash hashPairs ref), _ =>
                let (r, st) := evalHashIndexExpression (.MHash hashPairs ref) index st
                (.ok r, st)
              | _, _ =>
                let (e, st) := newError ("index operator not supported: " ++ typeDesc left) st
                (.ok (some e), st)
          | other => other
      | other => other
    | .hashLiteral _ pairs => evalHashGo evalN pairs [] env st
    | .arrayLiteral _ elements =>
      match evalExpressions evalN elements env st with
      | (.ok elems, st) =>
        if elems.length == 1 && isError (elems.getD 0 none) then (.ok (elems.getD 0 none), st)
        else
          let id := st.arrays.length
          let st := { st with arrays := st.arrays ++ [elems] }
          let (r, st) := alloc st
          (.ok (some (.MArray id r)), st)
      | (.diverge, st) => (.diverge, st)
      | (.thrown, st) => (.thrown, st)

/-- The evaluator at each fuel level. -/
def evaluateNodeFn : Nat → Option Node → Nat → EvalState → Res (Option MObject) × EvalState
  | 0 => fun _ _ st => (.diverge, st)
  | fuel + 1 => evalStep (fun n e st => evaluateNodeFn fuel n e st)

/-- `evaluateNode(node, env)`. -/
def evaluateNode (fuel : Nat) (node : Option Node) (env : Nat) (st : EvalState) :
    Res (Option MObject) × EvalState :=
  evaluateNodeFn fuel node env st

/-- `evaluate(program, env)`: the top-level entry point. -/
def evaluate (fuel : Nat) (program : Program) (env : Nat) (st : EvalState) :
    Res (Option MObject) × EvalState :=
  evalProgramGo (fun n e st => evaluateNodeFn fuel n e st) program.statements none env st

/-! # Theorems

Shared fixtures: `env0`/`st0` are the environment id and state produced by
`Environment.newEnvironment()` on the freshly initialised module state
(the setting of the REPL, the benchmark and the test suite). -/

def env0 : Nat := (newEnvironment initState).1

def st0 : EvalState := (newEnvironment initState).2

def divOperator : String := "/"

def eqOperator : String := "=="

def neqOperator : String := "!="

/-! ## C1: integer division -/

/-- C1: evaluating `7 / 2` on two `Integer` operands.  The claim says the
result is `Integer(3)` (truncation toward zero); the code divides the two
JS numbers with plain `/`, producing an `MInteger` whose value is the
non-integer `7 / 2 = 3.5` (exact in IEEE-754), not `3`.  This witnesses the
divergence of `evalIntegerInfixExpression` from the documented integer
division. -/
theorem c1_division_is_not_truncated : ∀ (r1 r2 : Nat) (st : EvalState),
    evalIntegerInfixExpression divOperator (.MInteger 7 r1) (.MInteger 2 r2) st
      = (.MInteger ((7 : ℚ) / 2) st.nextRef, { st with nextRef := st.nextRef + 1 })
    ∧ ((7 : ℚ) / 2) ≠ 3 := by
  intro r1 r2 st
  exact ⟨rfl, by norm_num⟩

/-! ## C2: string `==` compares references, not text -/

/-- The token of the string literal `"a"`. -/
def tokStrA : Token := ⟨.STRING, "a"⟩

/-- The AST of the program `"a" == "a"`. -/
def c2prog : Program :=
  ⟨[.expressionStatement tokStrA (some
    (.infixExpression ⟨.EQ, "=="⟩
      (some (.stringLiteral tokStrA "a"))
      "=="
      (some (.stringLiteral tokStrA "a"))))]⟩

/-- C2 counterexample: evaluating `"a" == "a"` yields canonical `FALSE`,
not `TRUE`, although the two strings have equal text: each literal
allocates a fresh `MString` and the `==` branch of `evalInfixExpression`
compares the two objects with `===`. -/
theorem c2_counterexample_string_eq_by_reference :
    (evaluate 5 c2prog env0 st0).1 = .ok (some FALSE) ∧ FALSE ≠ TRUE := by
  refine ⟨rfl, ?_⟩
  intro h
  have h' := congrArg MObject.refId h
  simp [FALSE, TRUE, MObject.refId] at h'

/-- C2 (amended): on two `String` operands, `==` yields the canonical
`Boolean` of the *reference* comparison of the two objects (`TRUE` iff they
are the same allocation), and `!=` yields its negation; the text plays no
role.  In particular `"a" == "a"` (two distinct allocations) is `FALSE`. -/
theorem c2_amended_string_eq_is_identity :
    ∀ (s1 s2 : String) (r1 r2 : Nat) (st : EvalState),
    evalInfixExpression eqOperator (.MString s1 r1) (.MString s2 r2) st
      = (toMonkey (r1 == r2), st)
    ∧ evalInfixExpression neqOperator (.MString s1 r1) (.MString s2 r2) st
      = (toMonkey (!(r1 == r2)), st) := by
  intro s1 s2 r1 r2 st
  exact ⟨rfl, rfl⟩

/-! ## C3: the hash-literal key error message -/

/-- The AST of the function literal `fn(x) { x }`. -/
def fnXnode : Node :=
  .functionLiteral ⟨.FUNCTION, "fn"⟩
    (some [⟨⟨.IDENT, "x"⟩, "x"⟩])
    (some (.mk ⟨.LBRACE, "\x7b"⟩
      (some [some (.expressionStatement ⟨.IDENT, "x"⟩ (some (.identifier ⟨.IDENT, "x"⟩ "x")))])))
    ""

/-- The AST of the program `{ fn(x) { x } : 1 }` (a hash literal whose key
evaluates to a `Function`). -/
def c3prog : Program :=
  ⟨[.expressionStatement ⟨.LBRACE, "\x7b"⟩ (some
    (.hashLiteral ⟨.LBRACE, "\x7b"⟩ [(fnXnode, .integerLiteral ⟨.INT, "1"⟩ 1)]))]⟩

/-- The message the hash-literal path actually produces (evaluator.ts:376,
without the article). -/
def c3msgActual : String := "unusable as hash key: MFunction"

/-- The message the claim (and the index-expression path) spells, with the
article. -/
def c3msgClaimed : String := "unusable as a hash key: MFunction"

/-- C3 counterexample: a hash literal whose key evaluates to a `Function`
returns an `Error` reading `unusable as hash key: MFunction` — not the
claimed `unusable as a hash key: MFunction` (the article appears only on
the separate index-expression path). -/
theorem c3_counterexample_hash_literal_error_message :
    (evaluate 5 c3prog env0 st0).1 = .ok (some (.MError c3msgActual 9))
    ∧ c3msgActual ≠ c3msgClaimed := by
  exact ⟨rfl, by decide⟩

/-- C3 (amended): whenever evaluation of a hash literal reaches a key
expression that evaluates (without error) to an object that is not an
`MValue` (`Integer`/`Boolean`/`String`) — for example a `Function` — the
result of the literal is an `Error` whose message is exactly
`unusable as hash key: <Type>` (no article), where `<Type>` is the runtime
tag of the key object, and the error is allocated in the state left by the
key's evaluation. -/
theorem c3_amended_hash_literal_error_message :
    ∀ (fuel : Nat) (keyNode valueNode : Node) (rest : List (Node × Node))
      (acc : List (String × MObject × Option MObject)) (env : Nat) (st : EvalState)
      (key : MObject) (st' : EvalState),
    evaluateNodeFn fuel (some keyNode) env st = (.ok (some key), st') →
    isError (some key) = false →
    isMValue key = false →
    evalHashGo (fun n e s => evaluateNodeFn fuel n e s) ((keyNode, valueNode) :: rest) acc env st
      = (.ok (some (.MError ("unusable as hash key: " ++ typeDesc (some key)) st'.nextRef)),
         { st' with nextRef := st'.nextRef + 1 }) := by
  intro fuel keyNode valueNode rest acc env st key st' hkey herr hmv
  simp only [evalHashGo, hkey, herr, hmv, Bool.false_eq_true, if_false, newError, alloc]

/-- C3 witness: the amended theorem applied to the hash literal
`{ fn(x) { x } : 1 }` in the initial state. -/
theorem c3_amended_witness :
    evalHashGo (fun n e s => evaluateNodeFn 4 n e s)
        [(fnXnode, .integerLiteral ⟨.INT, "1"⟩ 1)] [] env0 st0
      = (.ok (some (.MError c3msgActual 9)), { st0 with nextRef := 10 }) := by
  have h := c3_amended_hash_literal_error_message 4 fnXnode (.integerLiteral ⟨.INT, "1"⟩ 1)
    [] [] env0 st0 (.MFunction (some [⟨⟨.IDENT, "x"⟩, "x"⟩])
      (some (.mk ⟨.LBRACE, "\x7b"⟩
        (some [some (.expressionStatement ⟨.IDENT, "x"⟩ (some (.identifier ⟨.IDENT, "x"⟩ "x")))])))
      env0 8)
    { st0 with nextRef := 9 } rfl rfl rfl
  exact h

/-! ## C5: a `ReturnValue` can escape `evaluate` -/

def isMReturnValue : MObject → Bool
  | .MReturnValue _ _ => true
  | _ => false

/-- The payload of a `ReturnValue` (`result.value`). -/
def MObject.rvValue : MObject → MObject
  | .MReturnValue v _ => v
  | o => o

def isMReturnValueRes : Res (Option MObject) → Bool
  | .ok (some (.MReturnValue _ _)) => true
  | _ => false

/-- The AST of the program `return if (true) { return 2; };` (parsed this
way by the Pratt parser: `if` is an expression, so it may follow `return`). -/
def c5prog : Program :=
  ⟨[.returnStatement ⟨.RETURN, "return"⟩ (some
    (.ifExpression ⟨.IF, "if"⟩
      (some (.booleanLiteral ⟨.TRUE, "true"⟩ true))
      (some (.mk ⟨.LBRACE, "\x7b"⟩
        (some [some (.returnStatement ⟨.RETURN, "return"⟩
          (some (.integerLiteral ⟨.INT, "2"⟩ 2)))])))
      none))]⟩

/-- C5 counterexample: evaluating `return if (true) { return 2; };` makes
the top-level statement evaluate to the doubly wrapped
`ReturnValue(ReturnValue(2))`; `evaluate` unwraps only one layer, so the
object it returns *is* an `MReturnValue`. -/
theorem c5_counterexample_returnvalue_escapes :
    isMReturnValueRes (evaluate 5 c5prog env0 st0).1 = true
    ∧ (evaluate 5 c5prog env0 st0).1 = .ok (some (.MReturnValue (.MInteger 2 8) 9)) := by
  exact ⟨rfl, rfl⟩

/-- C5 (amended): the top-level statement loop of `evaluate` unwraps
exactly one `ReturnValue` layer: when a statement evaluates to
`ReturnValue(w)` the loop immediately returns the payload `w` — so the
result of `evaluate` is itself a `ReturnValue` exactly when the payload is
(nested `return` double wrapping, e.g. `return if (true) { return 2; };`);
otherwise no `ReturnValue` escapes. -/
theorem c5_amended_evaluate_unwraps_once :
    ∀ (fuel : Nat) (stmt : Node) (rest : List Node) (result : Option MObject)
      (env : Nat) (st : EvalState) (w : MObject) (st' : EvalState),
    evaluateNodeFn fuel (some stmt) env st = (.ok (some w), st') →
    isMReturnValue w = true →
    evalProgramGo (fun n e s => evaluateNodeFn fuel n e s) (stmt :: rest) result env st
      = (.ok (some w.rvValue), st') := by
  intro fuel stmt rest result env st w st' hstmt hrv
  match w, hrv with
  | .MReturnValue v r, _ =>
    simp only [evalProgramGo, hstmt, MObject.rvValue]

/-- C5 witness: the amended theorem applied to the single statement of
`return if (true) { return 2; };`, whose evaluation is the double wrap
`ReturnValue(ReturnValue(2))`; the loop returns the inner `ReturnValue`. -/
theorem c5_amended_witness :
    evalProgramGo (fun n e s => evaluateNodeFn 5 n e s) c5prog.statements none env0 st0
      = (.ok (some (.MReturnValue (.MInteger 2 8) 9)), { st0 with nextRef := 11 }) := by
  have h := c5_amended_evaluate_unwraps_once 5
    (.returnStatement ⟨.RETURN, "return"⟩ (some
      (.ifExpression ⟨.IF, "if"⟩
        (some (.booleanLiteral ⟨.TRUE, "true"⟩ true))
        (some (.mk ⟨.LBRACE, "\x7b"⟩
          (some [some (.returnStatement ⟨.RETURN, "return"⟩
            (some (.integerLiteral ⟨.INT, "2"⟩ 2)))])))
        none)))
    [] none env0 st0
    (.MReturnValue (.MReturnValue (.MInteger 2 8) 9) 10) { st0 with nextRef := 11 } rfl rfl
  exact h

/-! ## C9: operator precedence and associativity -/

def c9input : String := "a + b * c + d / e - f"

def c9expected : String := "(((a + (b * c)) + (d / e)) - f)"

/-- An `IDENT` token. -/
def identTok (s : String) : Token := ⟨.IDENT, s⟩

/-- An identifier node as `parseIdentifier` builds it. -/
def identNode (s : String) : Node := .identifier (identTok s) s

/-- The AST that parsing `c9input` produces: one expression statement
holding the left-leaning infix tree `(((a + (b * c)) + (d / e)) - f)`,
every infix node keeping its operator token. -/
def c9ast : Program :=
  ⟨[.expressionStatement (identTok "a") (some
    (.infixExpression ⟨.MINUS, "-"⟩
      (some (.infixExpression ⟨.PLUS, "+"⟩
        (some (.infixExpression ⟨.PLUS, "+"⟩
          (some (identNode "a"))
          "+"
          (some (.infixExpression ⟨.ASTERISK, "*"⟩
            (some (identNode "b")) "*" (some (identNode "c"))))))
        "+"
        (some (.infixExpression ⟨.SLASH, "/"⟩
          (some (identNode "d")) "/" (some (identNode "e"))))))
      "-"
      (some (identNode "f"))))]⟩

set_option maxHeartbeats 2000000 in
/-- C9: lexing and parsing `a + b * c + d / e - f` succeeds with an empty
error list and produces exactly the AST `c9ast`, whose `toString()` is
`(((a + (b * c)) + (d / e)) - f)`: the infix operators associate to the
left and `*`, `/` bind tighter than `+`, `-`. -/
theorem c9_operator_precedence :
    parseSource 30 c9input = some (c9ast, [])
    ∧ programToString c9ast = c9expected := by
  exact ⟨rfl, rfl⟩

/-! ## C10: `push` mutates the backing array in place and shares it -/

/-- Reading back an in-bounds updated element of a list. -/
theorem listGetD_set_self {α : Type} :
    ∀ (l : List α) (i : Nat) (v d : α), i < l.length → (l.set i v).getD i d = v
  | _ :: _, 0, _, _, _ => rfl
  | _ :: l, i + 1, v, d, h => listGetD_set_self l i v d (Nat.lt_of_succ_lt_succ h)
  | [], _, _, _, h => absurd h (by simp)

/-- C10: calling the builtin `push` on an `MArray` and any second argument
`x` appends `x` to the backing JS array *in place* (the heap entry under
the array's id is the old element list with `x` appended, so the original
`MArray` observes the growth: one element longer, last element `x`), and
the returned wrapper is a fresh `MArray` sharing that same backing array
id.  The original array is not left unchanged. -/
theorem c10_push_mutates_in_place :
    ∀ (st : EvalState) (id aref : Nat) (x : Option MObject),
    id < st.arrays.length →
    applyBuiltin .push [some (.MArray id aref), x] st
      = (some (.MArray id st.nextRef),
         { st with arrays := st.arrays.set id (st.arrays.getD id [] ++ [x]),
                   nextRef := st.nextRef + 1 })
    ∧ ({ st with arrays := st.arrays.set id (st.arrays.getD id [] ++ [x]),
                 nextRef := st.nextRef + 1 } : EvalState).arrays.getD id []
        = st.arrays.getD id [] ++ [x]
    ∧ (st.arrays.getD id [] ++ [x]).length = (st.arrays.getD id []).length + 1
    ∧ (st.arrays.getD id [] ++ [x]).getLast? = some x := by
  intro st id aref x hid
  refine ⟨rfl, ?_, by simp, by simp⟩
  exact listGetD_set_self _ _ _ _ hid

/-- C10 witness: `push` on a one-element backing array. -/
theorem c10_push_witness :
    applyBuiltin .push [some (.MArray 0 9), some TRUE] { frames := [], arrays := [[some FALSE]], nextRef := 10 }
      = (some (.MArray 0 10), { frames := [], arrays := [[some FALSE, some TRUE]], nextRef := 11 })
    ∧ ([some FALSE] ++ [some TRUE] : List (Option MObject)).getLast? = some (some TRUE) := by
  have h := c10_push_mutates_in_place
    { frames := [], arrays := [[some FALSE]], nextRef := 10 } 0 9 (some TRUE) (by decide)
  exact ⟨h.1, h.2.2.2⟩

/-! ## C8: array indexing is total — element or `NULL`, never an error -/

/-- `elements[i]` never produces an error object when the elements are free
of error objects (it is an element or JS `undefined`). -/
theorem jsArrayGet_not_error (elems : List (Option MObject)) (q : ℚ)
    (hclean : ∀ e ∈ elems, isError e = false) : isError (jsArrayGet elems q) = false := by
  unfold jsArrayGet
  split
  · rcases hget : elems.get? q.num.toNat with _ | e
    · simp only [List.getD, ← List.get?_eq_getElem?, hget, Option.getD_none]
      rfl
    · have hmem : e ∈ elems := List.get?_mem hget
      have : elems.getD q.num.toNat none = e := by
        simp [List.getD, ← List.get?_eq_getElem?, hget]
      rw [this]
      exact hclean e hmem
  · rfl

/-- C8: indexing an `Array` object (backing elements `elems`) with an
`Integer` index `i`: for `0 ≤ i ≤ length - 1` the result is the element at
position `i` (which may itself be JS `null`); for `i < 0` or
`i > length - 1` it is the canonical `NULL`; and (the elements being free
of error objects, as every evaluator-built array is) the result is never an
`Error` — and the model function is total, so no exception is possible. -/
theorem c8_array_index_total :
    ∀ (st : EvalState) (id aref iref : Nat) (elems : List (Option MObject)) (i : ℤ),
    st.arrays.get? id = some elems →
    (0 ≤ i → i ≤ (elems.length : ℤ) - 1 →
      evalArrayIndexExpression st (.MArray id aref) (.MInteger (i : ℚ) iref)
        = elems.getD i.toNat none)
    ∧ ((i < 0 ∨ (elems.length : ℤ) - 1 < i) →
      evalArrayIndexExpression st (.MArray id aref) (.MInteger (i : ℚ) iref) = some NULL)
    ∧ ((∀ e ∈ elems, isError e = false) →
      isError (evalArrayIndexExpression st (.MArray id aref) (.MInteger (i : ℚ) iref)) = false) := by
  intro st id aref iref elems i hheap
  have harr : st.arrays.getD id [] = elems := by
    simp [List.getD, ← List.get?_eq_getElem?, hheap]
  refine ⟨?_, ?_, ?_⟩
  · intro h0 hle
    have hc1 : decide ((i : ℚ) < 0) = false := by
      apply decide_eq_false
      rw [not_lt]
      exact_mod_cast h0
    have hc2 : decide ((i : ℚ) > ((elems.length : ℚ) - 1)) = false := by
      apply decide_eq_false
      rw [gt_iff_lt, not_lt]
      have h' : (i : ℚ) ≤ ((elems.length : ℤ) : ℚ) - 1 := by
        rw [show ((elems.length : ℤ) : ℚ) - 1 = (((elems.length : ℤ) - 1 : ℤ) : ℚ) by push_cast; ring]
        exact_mod_cast hle
      push_cast at h' ⊢
      linarith
    have hd0 : (decide (0 ≤ i)) = true := decide_eq_true h0
    have hdlt : (decide (i.toNat < elems.length)) = true := by
      apply decide_eq_true
      omega
    simp only [evalArrayIndexExpression, harr, MObject.arrayId, MObject.intValue, hc1, hc2,
      Bool.or_false, Bool.false_eq_true, if_false, jsArrayGet, Rat.den_intCast,
      Rat.num_intCast, hd0, hdlt, beq_self_eq_true, Bool.and_self, Bool.and_true, if_true]
  · intro hout
    have hcond : (decide ((i : ℚ) < 0) || decide ((i : ℚ) > ((elems.length : ℚ) - 1))) = true := by
      rcases hout with hneg | hbig
      · have hq : (i : ℚ) < 0 := by exact_mod_cast hneg
        simp [hq]
      · have hq : (i : ℚ) > ((elems.length : ℚ) - 1) := by
          rw [gt_iff_lt, show ((elems.length : ℚ) - 1) = (((elems.length : ℤ) - 1 : ℤ) : ℚ) by
            push_cast; ring]
          exact_mod_cast hbig
        simp [hq]
    simp only [evalArrayIndexExpression, harr, MObject.arrayId, MObject.intValue, hcond, if_true]
  · intro hclean
    simp only [evalArrayIndexExpression, harr, MObject.arrayId, MObject.intValue]
    split
    · rfl
    · exact jsArrayGet_not_error elems _ hclean

/-- C8 witness: indexing the two-element array `[TRUE, FALSE]` (heap id 0)
with `1` yields the element `FALSE`, with `5` yields `NULL`, and neither is
an error. -/
theorem c8_array_index_witness :
    evalArrayIndexExpression ⟨[], [[some TRUE, some FALSE]], 10⟩ (.MArray 0 8)
        (.MInteger ((1 : ℤ) : ℚ) 9) = some FALSE
    ∧ evalArrayIndexExpression ⟨[], [[some TRUE, some FALSE]], 10⟩ (.MArray 0 8)
        (.MInteger ((5 : ℤ) : ℚ) 9) = some NULL
    ∧ isError (evalArrayIndexExpression ⟨[], [[some TRUE, some FALSE]], 10⟩ (.MArray 0 8)
        (.MInteger ((1 : ℤ) : ℚ) 9)) = false := by
  have h1 := c8_array_index_total ⟨[], [[some TRUE, some FALSE]], 10⟩ 0 8 9
    [some TRUE, some FALSE] 1 rfl
  have h5 := c8_array_index_total ⟨[], [[some TRUE, some FALSE]], 10⟩ 0 8 9
    [some TRUE, some FALSE] 5 rfl
  refine ⟨?_, ?_, ?_⟩
  · rw [h1.1 (by decide) (by decide)]
    rfl
  · exact h5.2.1 (by decide)
  · exact h1.2.2 (by decide)

/-! ## C4: call-argument evaluation is left-to-right with error short-circuit -/

/-- A clean left-to-right run over a list of argument expressions: each
one evaluates without error, yielding the listed values and threading the
state as shown. -/
inductive CleanSeq (evalN : Option Node → Nat → EvalState → Res (Option MObject) × EvalState)
    (env : Nat) : List (Option Node) → EvalState → List (Option MObject) → EvalState → Prop
  | nil (st : EvalState) : CleanSeq evalN env [] st [] st
  | cons {e : Option Node} {st : EvalState} {v : Option MObject} {st' : EvalState}
      {rest : List (Option Node)} {vs : List (Option MObject)} {st'' : EvalState} :
      evalN e env st = (.ok v, st') → isError v = false →
      CleanSeq evalN env rest st' vs st'' →
      CleanSeq evalN env (e :: rest) st (v :: vs) st''

/-- The argument loop after a clean prefix: it has accumulated the prefix
values and continues on the remaining expressions from the threaded state. -/
theorem evalExpressionsGo_clean_append
    {evalN : Option Node → Nat → EvalState → Res (Option MObject) × EvalState}
    {env : Nat} {pre : List (Option Node)} {st : EvalState} {vs : List (Option MObject)}
    {st2 : EvalState} (h : CleanSeq evalN env pre st vs st2) :
    ∀ (tail : List (Option Node)) (acc : List (Option MObject)),
    evalExpressionsGo evalN (pre ++ tail) acc env st
      = evalExpressionsGo evalN tail (acc ++ vs) env st2 := by
  induction h with
  | nil st =>
    intro tail acc
    simp
  | cons he herr _ ih =>
    intro tail acc
    simp only [List.cons_append, evalExpressionsGo, he, herr, Bool.false_eq_true, if_false,
      List.append_eq]
    rw [ih]
    simp

/-- C4: a call expression whose arguments contain an expression evaluating
to an `Error` (after a clean prefix): the callee and the arguments up to
and including the failing one are evaluated left-to-right, the `Error`
object is returned as the value of the whole call in the state left by the
failing argument — the argument expressions to its right (`post`, which
never occurs in the conclusion) are not evaluated, none of their side
effects happen, and the callee is never applied. -/
theorem c4_call_arguments_shortcircuit :
    ∀ (fuel : Nat) (tok : Token) (fnE : Option Node) (pre : List (Option Node))
      (bad : Option Node) (post : List (Option Node)) (env : Nat) (st : EvalState)
      (fnV : MObject) (st1 : EvalState) (vs : List (Option MObject)) (st2 : EvalState)
      (err : MObject) (st3 : EvalState),
    evaluateNodeFn fuel fnE env st = (.ok (some fnV), st1) →
    isError (some fnV) = false →
    CleanSeq (fun n e s => evaluateNodeFn fuel n e s) env pre st1 vs st2 →
    evaluateNodeFn fuel bad env st2 = (.ok (some err), st3) →
    isError (some err) = true →
    evaluateNodeFn (fuel + 1) (some (.callExpression tok fnE (some (pre ++ bad :: post)))) env st
      = (.ok (some err), st3) := by
  intro fuel tok fnE pre bad post env st fnV st1 vs st2 err st3 hfn hfnerr hpre hbad herr
  show evalStep (fun n e s => evaluateNodeFn fuel n e s)
    (some (.callExpression tok fnE (some (pre ++ bad :: post)))) env st = (.ok (some err), st3)
  simp only [evalStep, ifNotError, hfn, hfnerr, Bool.false_eq_true, if_false, evalExpressions]
  rw [evalExpressionsGo_clean_append hpre]
  simp only [List.nil_append, evalExpressionsGo, hbad, herr, if_true]
  simp [herr]

/-- The error message of evaluating `-true`. -/
def c4msg : String := "unknown operator: -MBoolean"

/-- C4 witness: `fn(x) { x } (1, -true, let z = 9)` — the second argument
evaluates to the error `unknown operator: -MBoolean`; that error is the
call's value, the trailing `let z = 9` never executes (the final state
carries no binding for `z`), and the function body is never entered. -/
theorem c4_call_arguments_witness :
    evaluateNodeFn 4 (some (.callExpression ⟨.LPAREN, "("⟩
        (some fnXnode)
        (some [some (.integerLiteral ⟨.INT, "1"⟩ 1),
               some (.prefixExpression ⟨.MINUS, "-"⟩ "-"
                 (some (.booleanLiteral ⟨.TRUE, "true"⟩ true))),
               some (.letStatement ⟨.LET, "let"⟩ ⟨⟨.IDENT, "z"⟩, "z"⟩
                 (some (.integerLiteral ⟨.INT, "9"⟩ 9)))]))) env0 st0
      = (.ok (some (.MError c4msg 10)), { st0 with nextRef := 11 }) := by
  have h := c4_call_arguments_shortcircuit 3 ⟨.LPAREN, "("⟩
    (some fnXnode)
    [some (.integerLiteral ⟨.INT, "1"⟩ 1)]
    (some (.prefixExpression ⟨.MINUS, "-"⟩ "-" (some (.booleanLiteral ⟨.TRUE, "true"⟩ true))))
    [some (.letStatement ⟨.LET, "let"⟩ ⟨⟨.IDENT, "z"⟩, "z"⟩
      (some (.integerLiteral ⟨.INT, "9"⟩ 9)))]
    env0 st0
    (.MFunction (some [⟨⟨.IDENT, "x"⟩, "x"⟩])
      (some (.mk ⟨.LBRACE, "\x7b"⟩
        (some [some (.expressionStatement ⟨.IDENT, "x"⟩ (some (.identifier ⟨.IDENT, "x"⟩ "x")))])))
      env0 8)
    { st0 with nextRef := 9 }
    [some (.MInteger 1 9)]
    { st0 with nextRef := 10 }
    (.MError c4msg 10)
    { st0 with nextRef := 11 }
    rfl rfl (CleanSeq.cons rfl rfl (CleanSeq.nil _)) rfl rfl
  exact h

/-! ## C7: the lexer is total and yields `(EOF, "")` forever at end of input -/

namespace Lexer

theorem readChar_input (l : Lexer) : (readChar l).input = l.input := rfl

/-- `readChar` establishes the state invariant unconditionally. -/
theorem inv_readChar (l : Lexer) : Inv (readChar l) := by
  constructor
  · rfl
  · show peakChar l = l.input.get? l.readPosition
    unfold peakChar
    split
    · rw [List.get?_eq_none.mpr (by omega)]
    · rfl

theorem inv_newLexer (input : List Char) : Inv (newLexer input) := inv_readChar _

/-- Under the invariant, a non-`ZERO` current character puts `position`
strictly inside the input. -/
theorem pos_lt_of_ch_some {l : Lexer} (hInv : Inv l) {c : Char} (hc : l.ch = some c) :
    l.position < l.input.length := by
  by_contra h
  rw [not_lt] at h
  rw [hInv.2, List.get?_eq_none.mpr h] at hc
  exact Option.noConfusion hc

/-- Position bookkeeping of `readChar` under the invariant. -/
theorem readChar_position {l : Lexer} (hInv : Inv l) :
    (readChar l).position = l.position + 1 := by
  show l.readPosition = l.position + 1
  exact hInv.1

/-- The whitespace loop terminates from every invariant state given fuel
beyond the remaining input. -/
theorem skipWhitespaceGo_some :
    ∀ (fuel : Nat) (l : Lexer), Inv l → l.input.length + 1 ≤ fuel + l.position → 1 ≤ fuel →
    ∃ l', skipWhitespaceGo fuel l = some l' ∧ Inv l' ∧ l'.input = l.input ∧
      l.position ≤ l'.position := by
  intro fuel
  induction fuel with
  | zero => intro l _ _ h1; omega
  | succ fuel ih =>
    intro l hInv hbound _
    by_cases hw : isWhitespaceCh l.ch
    · obtain ⟨c, hc⟩ : ∃ c, l.ch = some c := by
        cases hch : l.ch with
        | none => rw [hch] at hw; exact absurd hw (by simp [isWhitespaceCh])
        | some c => exact ⟨c, rfl⟩
      have hlt := pos_lt_of_ch_some hInv hc
      have hpos := readChar_position hInv
      obtain ⟨l', h1, h2, h3, h4⟩ := ih (readChar l) (inv_readChar l)
        (by rw [readChar_input, hpos]; omega)
        (by omega)
      exact ⟨l', by simp [skipWhitespaceGo, hw, h1], h2, by rw [h3, readChar_input], by omega⟩
    · exact ⟨l, by simp [skipWhitespaceGo, hw], hInv, rfl, le_refl _⟩

/-- The `readValue` loop terminates from every invariant state, for any
predicate rejecting `ZERO`. -/
theorem readValueGo_some (pred : Option Char → Bool) (hpred : pred none = false) :
    ∀ (fuel : Nat) (l : Lexer), Inv l → l.input.length + 1 ≤ fuel + l.position → 1 ≤ fuel →
    ∃ l', readValueGo pred fuel l = some l' ∧ Inv l' ∧ l'.input = l.input := by
  intro fuel
  induction fuel with
  | zero => intro l _ _ h1; omega
  | succ fuel ih =>
    intro l hInv hbound _
    by_cases hw : pred l.ch
    · obtain ⟨c, hc⟩ : ∃ c, l.ch = some c := by
        cases hch : l.ch with
        | none => rw [hch] at hw; rw [hpred] at hw; exact absurd hw (by simp)
        | some c => exact ⟨c, rfl⟩
      have hlt := pos_lt_of_ch_some hInv hc
      have hpos := readChar_position hInv
      obtain ⟨l', h1, h2, h3⟩ := ih (readChar l) (inv_readChar l)
        (by rw [readChar_input, hpos]; omega)
        (by omega)
      exact ⟨l', by simp [readValueGo, hw, h1], h2, by rw [h3, readChar_input]⟩
    · exact ⟨l, by simp [readValueGo, hw], hInv, rfl⟩

/-- The string-literal loop terminates from every invariant state. -/
theorem readStringGo_some :
    ∀ (fuel : Nat) (l : Lexer), Inv l → l.input.length + 1 ≤ fuel + l.position → 1 ≤ fuel →
    ∃ l', readStringGo fuel l = some l' ∧ Inv l' ∧ l'.input = l.input := by
  intro fuel
  induction fuel with
  | zero => intro l _ _ h1; omega
  | succ fuel ih =>
    intro l hInv hbound _
    by_cases hstop : ((readChar l).ch == some '"' || (readChar l).ch == none) = true
    · exact ⟨readChar l, by simp only [readStringGo, hstop, if_true], inv_readChar l, rfl⟩
    · have hpos := readChar_position hInv
      obtain ⟨c, hc⟩ : ∃ c, (readChar l).ch = some c := by
        cases hch : (readChar l).ch with
        | none => rw [hch] at hstop; exact absurd (by simp) hstop
        | some c => exact ⟨c, rfl⟩
      have hlt := pos_lt_of_ch_some (inv_readChar l) hc
      rw [readChar_input] at hlt
      obtain ⟨l', h1, h2, h3⟩ := ih (readChar l) (inv_readChar l)
        (by rw [readChar_input, hpos]; omega)
        (by omega)
      refine ⟨l', ?_, h2, by rw [h3, readChar_input]⟩
      simp only [readStringGo]
      rw [if_neg (by simpa using hstop)]
      exact h1

/-- The second lexer component of `endsWithEqual` keeps the input. -/
theorem endsWithEqual_input (l : Lexer) (oneChar twoChars : TokenType)
    (duplicateChars : Bool) :
    (endsWithEqual l oneChar twoChars duplicateChars).2.input = l.input := by
  unfold endsWithEqual
  split
  · rfl
  · rfl

/-- `nextToken` always returns a token from an invariant state, and the
new state is again an invariant state over the same input. -/
theorem nextToken_some :
    ∀ (l : Lexer), Inv l →
    ∃ t l', nextToken l = some (t, l') ∧ Inv l' ∧ l'.input = l.input := by
  intro l hInv
  obtain ⟨l1, hsw, hInv1, hin1, _⟩ := skipWhitespaceGo_some (l.input.length + 1) l hInv
    (by omega) (by omega)
  have hswu : skipWhitespace l = some l1 := hsw
  cases hch : l1.ch with
  | none =>
    refine ⟨⟨.EOF, ""⟩, readChar l1, ?_, inv_readChar l1, by rw [readChar_input, hin1]⟩
    simp only [nextToken, hswu, hch]
  | some c =>
    simp only [nextToken, hswu, hch]
    by_cases h1 : (c == '=') = true
    · rw [if_pos h1]
      exact ⟨_, _, rfl, inv_readChar _, by rw [readChar_input, endsWithEqual_input, hin1]⟩
    rw [if_neg h1]
    by_cases h2 : (c == '!') = true
    · rw [if_pos h2]
      exact ⟨_, _, rfl, inv_readChar _, by rw [readChar_input, endsWithEqual_input, hin1]⟩
    rw [if_neg h2]
    by_cases h3 : (c == ';') = true
    · rw [if_pos h3]
      exact ⟨_, _, rfl, inv_readChar _, by rw [readChar_input, hin1]⟩
    rw [if_neg h3]
    by_cases h4 : (c == ':') = true
    · rw [if_pos h4]
      exact ⟨_, _, rfl, inv_readChar _, by rw [readChar_input, hin1]⟩
    rw [if_neg h4]
    by_cases h5 : (c == ',') = true
    · rw [if_pos h5]
      exact ⟨_, _, rfl, inv_readChar _, by rw [readChar_input, hin1]⟩
    rw [if_neg h5]
    by_cases h6 : (c == '(') = true
    · rw [if_pos h6]
      exact ⟨_, _, rfl, inv_readChar _, by rw [readChar_input, hin1]⟩
    rw [if_neg h6]
    by_cases h7 : (c == ')') = true
    · rw [if_pos h7]
      exact ⟨_, _, rfl, inv_readChar _, by rw [readChar_input, hin1]⟩
    rw [if_neg h7]
    by_cases h8 : (c == '\x7b') = true
    · rw [if_pos h8]
      exact ⟨_, _, rfl, inv_readChar _, by rw [readChar_input, hin1]⟩
    rw [if_neg h8]
    by_cases h9 : (c == '\x7d') = true
    · rw [if_pos h9]
      exact ⟨_, _, rfl, inv_readChar _, by rw [readChar_input, hin1]⟩
    rw [if_neg h9]
    by_cases h10 : (c == '[') = true
    · rw [if_pos h10]
      exact ⟨_, _, rfl, inv_readChar _, by rw [readChar_input, hin1]⟩
    rw [if_neg h10]
    by_cases h11 : (c == ']') = true
    · rw [if_pos h11]
      exact ⟨_, _, rfl, inv_readChar _, by rw [readChar_input, hin1]⟩
    rw [if_neg h11]
    by_cases h12 : (c == '+') = true
    · rw [if_pos h12]
      exact ⟨_, _, rfl, inv_readChar _, by rw [readChar_input, hin1]⟩
    rw [if_neg h12]
    by_cases h13 : (c == '-') = true
    · rw [if_pos h13]
      exact ⟨_, _, rfl, inv_readChar _, by rw [readChar_input, hin1]⟩
    rw [if_neg h13]
    by_cases h14 : (c == '*') = true
    · rw [if_pos h14]
      exact ⟨_, _, rfl, inv_readChar _, by rw [readChar_input, hin1]⟩
    rw [if_neg h14]
    by_cases h15 : (c == '/') = true
    · rw [if_pos h15]
      exact ⟨_, _, rfl, inv_readChar _, by rw [readChar_input, hin1]⟩
    rw [if_neg h15]
    by_cases h16 : (c == '<') = true
    · rw [if_pos h16]
      exact ⟨_, _, rfl, inv_readChar _, by rw [readChar_input, hin1]⟩
    rw [if_neg h16]
    by_cases h17 : (c == '>') = true
    · rw [if_pos h17]
      exact ⟨_, _, rfl, inv_readChar _, by rw [readChar_input, hin1]⟩
    rw [if_neg h17]
    by_cases h18 : (c == '"') = true
    · rw [if_pos h18]
      obtain ⟨l2, hrs, hInv2, hin2⟩ := readStringGo_some (l1.input.length + 1) l1 hInv1
        (by omega) (by omega)
      have hlit : readStringLit l1
          = some (substring l1.input (l1.position + 1) l2.position, l2) := by
        simp only [readStringLit, hrs]
      rw [hlit]
      exact ⟨_, _, rfl, inv_readChar _, by rw [readChar_input, hin2, hin1]⟩
    rw [if_neg h18]
    by_cases h19 : isIdentifierCh (some c) = true
    · rw [if_pos h19]
      obtain ⟨l2, hrv, hInv2, hin2⟩ := readValueGo_some isIdentifierCh rfl
        (l1.input.length + 1) l1 hInv1 (by omega) (by omega)
      have hval : readIdentifier l1
          = some (substring l1.input l1.position l2.position, l2) := by
        simp only [readIdentifier, readValue, hrv]
      rw [hval]
      exact ⟨_, _, rfl, hInv2, by rw [hin2, hin1]⟩
    rw [if_neg h19]
    by_cases h20 : isDigitCh (some c) = true
    · rw [if_pos h20]
      obtain ⟨l2, hrv, hInv2, hin2⟩ := readValueGo_some isDigitCh rfl
        (l1.input.length + 1) l1 hInv1 (by omega) (by omega)
      have hval : readNumber l1
          = some (substring l1.input l1.position l2.position, l2) := by
        simp only [readNumber, readValue, hrv]
      rw [hval]
      exact ⟨_, _, rfl, hInv2, by rw [hin2, hin1]⟩
    rw [if_neg h20]
    exact ⟨_, _, rfl, hInv1, hin1⟩

/-- At exhausted input, `nextToken` returns `(EOF, "")` and the state stays
exhausted. -/
theorem nextToken_eof {l : Lexer} (hInv : Inv l) (hexh : l.input.length ≤ l.position) :
    nextToken l = some (⟨.EOF, ""⟩, readChar l) ∧ Inv (readChar l) ∧
    (readChar l).input = l.input ∧ l.input.length ≤ (readChar l).position := by
  have hch : l.ch = none := by rw [hInv.2, List.get?_eq_none.mpr hexh]
  have hsw : skipWhitespace l = some l := by
    simp [skipWhitespace, skipWhitespaceGo, isWhitespaceCh, hch]
  refine ⟨?_, inv_readChar l, rfl, ?_⟩
  · simp only [nextToken, hsw, hch]
  · rw [readChar_position hInv]; omega

end Lexer

/-- Repeated calls: `nextTokenCalls n l` is the token of the `(n+1)`-st
call of `nextToken` starting from `l`. -/
def nextTokenCalls : Nat → Lexer → Option (Token × Lexer)
  | 0, l => Lexer.nextToken l
  | n + 1, l =>
    match Lexer.nextToken l with
    | none => none
    | some (_, l') => nextTokenCalls n l'

/-- C7: from every invariant lexer state (every state the constructor or a
prior `nextToken` can produce), `nextToken()` is total — it returns a token
(never `none`, the model's marker for a non-terminating scan, and the model
has no `thrown` outcome) and an invariant state over the same input — and
once the input is exhausted (`position ≥ length`), every subsequent call,
no matter how many, returns exactly `(EOF, "")`. -/
theorem c7_nextToken_total_and_eof_forever :
    ∀ (l : Lexer), Lexer.Inv l →
    (∃ t l', Lexer.nextToken l = some (t, l') ∧ Lexer.Inv l' ∧ l'.input = l.input)
    ∧ (l.input.length ≤ l.position →
       ∀ n, ∃ l', nextTokenCalls n l = some (⟨.EOF, ""⟩, l')
         ∧ Lexer.Inv l' ∧ l'.input = l.input ∧ l.input.length ≤ l'.position) := by
  intro l hInv
  refine ⟨Lexer.nextToken_some l hInv, ?_⟩
  intro hexh n
  induction n generalizing l with
  | zero =>
    obtain ⟨heq, hi, hin, hpos⟩ := Lexer.nextToken_eof hInv hexh
    exact ⟨Lexer.readChar l, heq, hi, hin, hpos⟩
  | succ n ih =>
    obtain ⟨heq, hi, hin, hpos⟩ := Lexer.nextToken_eof hInv hexh
    obtain ⟨l', h1, h2, h3, h4⟩ := ih (Lexer.readChar l) hi (by rw [hin]; exact hpos)
    refine ⟨l', ?_, h2, by rw [h3, hin], by rw [hin] at h4; exact h4⟩
    simp only [nextTokenCalls, heq]
    exact h1

/-- C7 witness: the lexer over the exhausted empty input — the invariant
holds, the input is exhausted, and the third successive call still returns
`(EOF, "")`. -/
theorem c7_witness :
    Lexer.Inv (Lexer.newLexer []) ∧ ([] : List Char).length ≤ (Lexer.newLexer []).position
    ∧ (∃ l', nextTokenCalls 2 (Lexer.newLexer []) = some (⟨.EOF, ""⟩, l')) := by
  have h := c7_nextToken_total_and_eof_forever (Lexer.newLexer []) ⟨rfl, rfl⟩
  obtain ⟨l', heq, -, -, -⟩ := h.2 (by decide) 2
  exact ⟨⟨rfl, rfl⟩, by decide, ⟨l', heq⟩⟩

/-! ## C6: the evaluator only ever produces the canonical `TRUE`, `FALSE`,
`NULL`

`OkObj` is the canonicity invariant on objects: every `MBoolean` inside is
one of the two canonical singletons (`ref` 0 for `true`, 1 for `false`)
and every `MNull` is the canonical `M_NULL` (`ref` 2), through
`ReturnValue` envelopes and hash buckets.  `StateOK` extends it to both
heaps.  The preservation proof below shows the evaluator never builds any
other boolean or null — its only sources are `TRUE`/`FALSE`/`M_NULL`
themselves and `toMonkey`. -/

inductive OkObj : MObject → Prop where
  | intOk (v : ℚ) (r : Nat) : OkObj (.MInteger v r)
  | boolOk (b : Bool) : OkObj (.MBoolean b (cond b 0 1))
  | strOk (s : String) (r : Nat) : OkObj (.MString s r)
  | retOk {v : MObject} (r : Nat) : OkObj v → OkObj (.MReturnValue v r)
  | errOk (m : String) (r : Nat) : OkObj (.MError m r)
  | nullOk : OkObj (.MNull 2)
  | funOk (p : Option (List Ident)) (b : Option Block) (e r : Nat) : OkObj (.MFunction p b e r)
  | arrOk (id r : Nat) : OkObj (.MArray id r)
  | hashOk {pairs : List (String × MObject × Option MObject)} (r : Nat) :
      (∀ k key v, (k, key, v) ∈ pairs → OkObj key) →
      (∀ k key v o, (k, key, v) ∈ pairs → v = some o → OkObj o) →
      OkObj (.MHash pairs r)
  | builtinOk (n : BuiltinName) (r : Nat) : OkObj (.MBuiltinFunction n r)

def OkOpt (v : Option MObject) : Prop := ∀ o, v = some o → OkObj o

def ArgsOK (args : List (Option MObject)) : Prop := ∀ v ∈ args, OkOpt v

def AccOK (acc : List (String × MObject × Option MObject)) : Prop :=
  (∀ k key v, (k, key, v) ∈ acc → OkObj key) ∧
  (∀ k key v o, (k, key, v) ∈ acc → v = some o → OkObj o)

/-- Canonicity of both heaps: every object stored in an environment frame
and every element of a backing array is canonical. -/
def StateOK (st : EvalState) : Prop :=
  (∀ fr ∈ st.frames, ∀ p ∈ fr.store, OkOpt p.2) ∧
  (∀ arr ∈ st.arrays, ∀ v ∈ arr, OkOpt v)

def ResOK : Res (Option MObject) → Prop
  | .ok v => OkOpt v
  | .diverge => True
  | .thrown => True

def ResListOK : Res (List (Option MObject)) → Prop
  | .ok vs => ArgsOK vs
  | .diverge => True
  | .thrown => True

theorem okOpt_none : OkOpt none := fun _o h => Option.noConfusion h

theorem okOpt_some {o : MObject} (h : OkObj o) : OkOpt (some o) := by
  intro o' h'
  cases h'
  exact h

theorem okObj_TRUE : OkObj TRUE := OkObj.boolOk true

theorem okObj_FALSE : OkObj FALSE := OkObj.boolOk false

theorem okObj_NULL : OkObj NULL := OkObj.nullOk

theorem okObj_toMonkey (b : Bool) : OkObj (toMonkey b) := by
  cases b
  · exact okObj_FALSE
  · exact okObj_TRUE

theorem okObj_evalBang (r : MObject) : OkObj (evalBangOperatorExpression r) := by
  unfold evalBangOperatorExpression
  split_ifs
  · exact okObj_FALSE
  · exact okObj_TRUE
  · exact okObj_TRUE
  · exact okObj_FALSE

theorem okObj_evalMinus (r : MObject) (st : EvalState) :
    OkObj (evalMinusPrefixOperatorExpression r st).1 := by
  unfold evalMinusPrefixOperatorExpression newInteger newError alloc
  split
  · exact OkObj.intOk _ _
  · exact OkObj.errOk _ _

theorem okObj_evalIntegerInfix (op : String) (l r : MObject) (st : EvalState) :
    OkObj (evalIntegerInfixExpression op l r st).1 := by
  unfold evalIntegerInfixExpression newInteger newError alloc
  split_ifs
  all_goals first
    | exact OkObj.intOk _ _
    | exact okObj_toMonkey _
    | exact OkObj.errOk _ _

theorem okObj_evalInfix (op : String) (l r : MObject) (st : EvalState) :
    OkObj (evalInfixExpression op l r st).1 := by
  unfold evalInfixExpression alloc newError
  split_ifs
  all_goals first
    | exact okObj_evalIntegerInfix op l r st
    | exact okObj_toMonkey _
    | exact OkObj.strOk _ _
    | exact OkObj.errOk _ _

/-- The helpers only allocate; neither heap changes, so `StateOK` carries
over.  (`alloc`, `newError`, `newInteger`, `evalInfixExpression`,
`evalIntegerInfixExpression`, `evalMinusPrefixOperatorExpression`.) -/
theorem stateOK_alloc {st : EvalState} (h : StateOK st) : StateOK (alloc st).2 := h

theorem stateOK_newError {st : EvalState} (h : StateOK st) (m : String) :
    StateOK (newError m st).2 := h

theorem stateOK_newInteger {st : EvalState} (h : StateOK st) (v : ℚ) :
    StateOK (newInteger v st).2 := h

theorem stateOK_evalIntegerInfix {st : EvalState} (h : StateOK st) (op : String)
    (l r : MObject) : StateOK (evalIntegerInfixExpression op l r st).2 := by
  unfold evalIntegerInfixExpression newInteger newError alloc
  split_ifs
  all_goals exact h

theorem stateOK_evalInfix {st : EvalState} (h : StateOK st) (op : String) (l r : MObject) :
    StateOK (evalInfixExpression op l r st).2 := by
  unfold evalInfixExpression newError alloc
  split_ifs
  all_goals first
    | exact stateOK_evalIntegerInfix h op l r
    | exact h

theorem stateOK_evalMinus {st : EvalState} (h : StateOK st) (r : MObject) :
    StateOK (evalMinusPrefixOperatorExpression r st).2 := by
  unfold evalMinusPrefixOperatorExpression newInteger newError alloc
  split
  · exact h
  · exact h

/-- A member of `mapSet m k v` is an old member or the new entry. -/
theorem mapSet_mem {α : Type} {m : List (String × α)} {k : String} {v : α} {p : String × α}
    (h : p ∈ mapSet m k v) : p ∈ m ∨ p = (k, v) := by
  unfold mapSet at h
  split_ifs at h
  · obtain ⟨q, hq, hpq⟩ := List.mem_map.mp h
    by_cases hqk : (q.1 == k) = true
    · rw [if_pos hqk] at hpq
      exact Or.inr hpq.symm
    · rw [if_neg hqk] at hpq
      exact Or.inl (hpq ▸ hq)
  · rcases List.mem_append.mp h with hmem | hnew
    · exact Or.inl hmem
    · exact Or.inr (List.mem_singleton.mp hnew)

theorem arraysGetD_ok {st : EvalState} (h : StateOK st) (id : Nat) :
    ∀ v ∈ st.arrays.getD id [], OkOpt v := by
  cases harr : st.arrays.get? id with
  | none =>
    intro v hv
    rw [show st.arrays.getD id [] = [] from by
      simp [List.getD, ← List.get?_eq_getElem?, harr]] at hv
    exact absurd hv (List.not_mem_nil v)
  | some arr =>
    intro v hv
    rw [show st.arrays.getD id [] = arr from by
      simp [List.getD, ← List.get?_eq_getElem?, harr]] at hv
    exact h.2 arr (List.get?_mem harr) v hv

/-- `getD i none` of a list of canonical optional objects is canonical. -/
theorem listGetD_okOpt {l : List (Option MObject)} (h : ∀ v ∈ l, OkOpt v) (n : Nat) :
    OkOpt (l.getD n none) := by
  cases hget : l.get? n with
  | none =>
    rw [show l.getD n none = none from by simp [List.getD, ← List.get?_eq_getElem?, hget]]
    exact okOpt_none
  | some v =>
    rw [show l.getD n none = v from by simp [List.getD, ← List.get?_eq_getElem?, hget]]
    exact h v (List.get?_mem hget)

theorem heapElem_ok {st : EvalState} (h : StateOK st) (id n : Nat) :
    OkOpt ((st.arrays.getD id []).getD n none) :=
  listGetD_okOpt (arraysGetD_ok h id) n

theorem argsGetD_ok {args : List (Option MObject)} (h : ArgsOK args) (i : Nat) :
    OkOpt (args.getD i none) :=
  listGetD_okOpt h i

theorem envGetGo_ok {st : EvalState} (h : StateOK st) :
    ∀ (fuel env : Nat) (name : String), OkOpt (envGetGo st fuel env name) := by
  intro fuel
  induction fuel with
  | zero => intro env name; exact okOpt_none
  | succ f ih =>
    intro env name
    cases hfr : st.frames.get? env with
    | none => simp only [envGetGo, hfr]; exact okOpt_none
    | some fr =>
      cases hmg : mapGet fr.store name with
      | some obj =>
        simp only [envGetGo, hfr, hmg]
        obtain ⟨p, hp, hobj⟩ := Option.map_eq_some'.mp hmg
        have hpmem : p ∈ fr.store := List.mem_of_find?_eq_some hp
        have hok := h.1 fr (List.get?_mem hfr) p hpmem
        subst hobj
        exact hok
      | none =>
        cases ho : fr.outer with
        | some outer =>
          simp only [envGetGo, hfr, hmg, ho]
          exact ih outer name
        | none =>
          simp only [envGetGo, hfr, hmg, ho]
          exact okOpt_none

theorem envGet_ok {st : EvalState} (h : StateOK st) (env : Nat) (name : String) :
    OkOpt (envGet st env name) :=
  envGetGo_ok h _ env name

theorem stateOK_envSet {st : EvalState} (h : StateOK st) (env : Nat) (name : String)
    {v : Option MObject} (hv : OkOpt v) : StateOK (envSet st env name v) := by
  cases hfr : st.frames.get? env with
  | none => simp only [envSet, hfr]; exact h
  | some fr =>
    simp only [envSet, hfr]
    constructor
    · intro fr' hfr' p hp
      rcases List.mem_or_eq_of_mem_set hfr' with hmem | heq
      · exact h.1 fr' hmem p hp
      · subst heq
        rcases mapSet_mem hp with hmem | heq2
        · exact h.1 fr (List.get?_mem hfr) p hmem
        · subst heq2
          exact hv
    · intro arr harr v' hv'
      exact h.2 arr harr v' hv'

theorem stateOK_newEnvironment {st : EvalState} (h : StateOK st) :
    StateOK (newEnvironment st).2 := by
  constructor
  · intro fr hfr p hp
    rcases List.mem_append.mp hfr with hmem | hnew
    · exact h.1 fr hmem p hp
    · rw [List.mem_singleton.mp hnew] at hp
      exact absurd hp (List.not_mem_nil p)
  · exact h.2

theorem stateOK_newEnclosedEnvironment {st : EvalState} (h : StateOK st) (outer : Nat) :
    StateOK (newEnclosedEnvironment outer st).2 := by
  constructor
  · intro fr hfr p hp
    rcases List.mem_append.mp hfr with hmem | hnew
    · exact h.1 fr hmem p hp
    · rw [List.mem_singleton.mp hnew] at hp
      exact absurd hp (List.not_mem_nil p)
  · exact h.2

theorem stateOK_bindParams {args : List (Option MObject)} (hargs : ArgsOK args) :
    ∀ (ps : List Ident) (i env : Nat) (st : EvalState), StateOK st →
    StateOK (bindParams ps i args env st) := by
  intro ps
  induction ps with
  | nil => intro i env st h; exact h
  | cons identifier rest ih =>
    intro i env st h
    unfold bindParams
    cases hget : args.get? i with
    | none =>
      simp only [hget]
      exact ih (i + 1) env st h
    | some v =>
      simp only [hget]
      exact ih (i + 1) env _ (stateOK_envSet h env identifier.value (hargs v (List.get?_mem hget)))

theorem builtinsGet_ok (name : String) : OkOpt (builtinsGet name) := by
  unfold builtinsGet
  split_ifs
  all_goals first
    | exact okOpt_some (OkObj.builtinOk _ _)
    | exact okOpt_none

theorem okOpt_evalArrayIndex {st : EvalState} (h : StateOK st) (a i : MObject) :
    OkOpt (evalArrayIndexExpression st a i) := by
  simp only [evalArrayIndexExpression, jsArrayGet]
  split
  · exact okOpt_some okObj_NULL
  · split
    · exact heapElem_ok h a.arrayId _
    · exact okOpt_none

/-- The buckets of a canonical object's `hashPairs` are canonical. -/
theorem hashPairs_ok {hash : MObject} (hh : OkObj hash) : AccOK hash.hashPairs := by
  cases hh
  case hashOk pairs r hk hv => exact ⟨hk, hv⟩
  all_goals exact ⟨fun k key v h => absurd h (List.not_mem_nil _),
    fun k key v o h _ => absurd h (List.not_mem_nil _)⟩

theorem evalHashIndex_ok {hash : MObject} (hh : OkObj hash) (index : Option MObject)
    {st : EvalState} (hst : StateOK st) :
    OkOpt (evalHashIndexExpression hash index st).1 ∧
    StateOK (evalHashIndexExpression hash index st).2 := by
  cases index with
  | none =>
    simp only [evalHashIndexExpression, newError, alloc]
    exact ⟨okOpt_some (OkObj.errOk _ _), hst⟩
  | some idx =>
    by_cases hmv : isMValue idx = true
    · cases hmg : mapGet hash.hashPairs idx.hashKey with
      | some pair =>
        simp only [evalHashIndexExpression, hmv, if_true, hmg]
        obtain ⟨p, hp, hpair⟩ := Option.map_eq_some'.mp hmg
        have hpmem : p ∈ hash.hashPairs := List.mem_of_find?_eq_some hp
        have hacc := hashPairs_ok hh
        refine ⟨?_, hst⟩
        intro o ho
        subst hpair
        exact hacc.2 p.1 p.2.1 p.2.2 o (by exact hpmem) ho
      | none =>
        simp only [evalHashIndexExpression, hmv, if_true, hmg]
        exact ⟨okOpt_some okObj_NULL, hst⟩
    · rw [Bool.not_eq_true] at hmv
      simp only [evalHashIndexExpression, hmv, Bool.false_eq_true, if_false, newError, alloc]
      exact ⟨okOpt_some (OkObj.errOk _ _), hst⟩

theorem applyBuiltin_ok {st : EvalState} (hst : StateOK st) (name : BuiltinName)
    (args : List (Option MObject)) (hargs : ArgsOK args) :
    OkOpt (applyBuiltin name args st).1 ∧ StateOK (applyBuiltin name args st).2 := by
  cases name with
  | len =>
    simp only [applyBuiltin, argSizeCheck, newInteger, newError, alloc]
    split_ifs
    · exact ⟨okOpt_some (OkObj.errOk _ _), hst⟩
    · split
      · exact ⟨okOpt_some (OkObj.intOk _ _), hst⟩
      · exact ⟨okOpt_some (OkObj.intOk _ _), hst⟩
      · exact ⟨okOpt_some (OkObj.errOk _ _), hst⟩
  | push =>
    simp only [applyBuiltin, argSizeCheck, arrayCheck, newError, alloc]
    split_ifs
    · exact ⟨okOpt_some (OkObj.errOk _ _), hst⟩
    · split
      · refine ⟨okOpt_some (OkObj.arrOk _ _), ?_, ?_⟩
        · intro fr hfr p hp
          exact hst.1 fr hfr p hp
        · intro arr harr v hv
          rcases List.mem_or_eq_of_mem_set harr with hmem | heq
          · exact hst.2 arr hmem v hv
          · subst heq
            rcases List.mem_append.mp hv with hmem | hnew
            · exact arraysGetD_ok hst _ v hmem
            · rw [List.mem_singleton.mp hnew]
              exact argsGetD_ok hargs 1
      · exact ⟨okOpt_some (OkObj.errOk _ _), hst⟩
  | first =>
    simp only [applyBuiltin, argSizeCheck, arrayCheck, newError, alloc]
    split_ifs
    · exact ⟨okOpt_some (OkObj.errOk _ _), hst⟩
    · split
      · split_ifs
        · exact ⟨heapElem_ok hst _ 0, hst⟩
        · exact ⟨okOpt_some okObj_NULL, hst⟩
      · exact ⟨okOpt_some (OkObj.errOk _ _), hst⟩
  | last =>
    simp only [applyBuiltin, argSizeCheck, arrayCheck, newError, alloc]
    split_ifs
    · exact ⟨okOpt_some (OkObj.errOk _ _), hst⟩
    · split
      · split_ifs
        · exact ⟨heapElem_ok hst _ _, hst⟩
        · exact ⟨okOpt_some okObj_NULL, hst⟩
      · exact ⟨okOpt_some (OkObj.errOk _ _), hst⟩
  | rest =>
    simp only [applyBuiltin, argSizeCheck, arrayCheck, newError, alloc]
    split_ifs
    · exact ⟨okOpt_some (OkObj.errOk _ _), hst⟩
    · split
      · split_ifs
        · refine ⟨okOpt_some (OkObj.arrOk _ _), ?_, ?_⟩
          · intro fr hfr p hp
            exact hst.1 fr hfr p hp
          · intro arr harr v hv
            rcases List.mem_append.mp harr with hmem | hnew
            · exact hst.2 arr hmem v hv
            · rw [List.mem_singleton.mp hnew] at hv
              exact arraysGetD_ok hst _ v (List.mem_of_mem_drop hv)
        · exact ⟨okOpt_some okObj_NULL, hst⟩
      · exact ⟨okOpt_some (OkObj.errOk _ _), hst⟩

/-- `OkObj` inversion through a `ReturnValue` envelope. -/
theorem okObj_rv_inv {v : MObject} {r : Nat} (h : OkObj (.MReturnValue v r)) : OkObj v := by
  cases h
  assumption

/-- The induction hypothesis of the master proof: the evaluator at the
next-smaller fuel preserves canonicity. -/
def EvalNOK (evalN : Option Node → Nat → EvalState → Res (Option MObject) × EvalState) : Prop :=
  ∀ (node : Option Node) (env : Nat) (st : EvalState), StateOK st →
    ResOK (evalN node env st).1 ∧ StateOK (evalN node env st).2

theorem ifNotError_ok {res : Res (Option MObject)} {st : EvalState}
    {body : MObject → EvalState → Res (Option MObject) × EvalState}
    (hr : ResOK res) (hst : StateOK st)
    (hbody : ∀ o st1, OkObj o → StateOK st1 →
      ResOK (body o st1).1 ∧ StateOK (body o st1).2) :
    ResOK (ifNotError (res, st) body).1 ∧ StateOK (ifNotError (res, st) body).2 := by
  cases res with
  | ok v =>
    cases v with
    | none => exact ⟨okOpt_none, hst⟩
    | some o =>
      by_cases he : isError (some o) = true
      · simp only [ifNotError, he, if_true]
        exact ⟨hr, hst⟩
      · rw [Bool.not_eq_true] at he
        simp only [ifNotError, he, Bool.false_eq_true, if_false]
        exact hbody o st (hr o rfl) hst
  | diverge => exact ⟨trivial, hst⟩
  | thrown => exact ⟨trivial, hst⟩

theorem evalExpressionsGo_ok
    {evalN : Option Node → Nat → EvalState → Res (Option MObject) × EvalState}
    (hN : EvalNOK evalN) :
    ∀ (args : List (Option Node)) (acc : List (Option MObject)) (env : Nat) (st : EvalState),
      StateOK st → ArgsOK acc →
      ResListOK (evalExpressionsGo evalN args acc env st).1 ∧
      StateOK (evalExpressionsGo evalN args acc env st).2 := by
  intro args
  induction args with
  | nil => intro acc env st hst hacc; exact ⟨hacc, hst⟩
  | cons a rest ih =>
    intro acc env st hst hacc
    obtain ⟨h1, h2⟩ := hN a env st hst
    rcases hev : evalN a env st with ⟨r, st1⟩
    rw [hev] at h1 h2
    cases r with
    | ok v =>
      by_cases herr : isError v = true
      · simp only [evalExpressionsGo, hev, herr, if_true]
        refine ⟨?_, h2⟩
        intro x hx
        rw [List.mem_singleton.mp hx]
        exact h1
      · rw [Bool.not_eq_true] at herr
        simp only [evalExpressionsGo, hev, herr, Bool.false_eq_true, if_false]
        refine ih _ env st1 h2 ?_
        intro x hx
        rcases List.mem_append.mp hx with hmem | hnew
        · exact hacc x hmem
        · rw [List.mem_singleton.mp hnew]
          exact h1
    | diverge => simp only [evalExpressionsGo, hev]; exact ⟨trivial, h2⟩
    | thrown => simp only [evalExpressionsGo, hev]; exact ⟨trivial, h2⟩

theorem evalExpressions_ok
    {evalN : Option Node → Nat → EvalState → Res (Option MObject) × EvalState}
    (hN : EvalNOK evalN) (args : Option (List (Option Node))) (env : Nat) {st : EvalState}
    (hst : StateOK st) :
    ResListOK (evalExpressions evalN args env st).1 ∧
    StateOK (evalExpressions evalN args env st).2 := by
  cases args with
  | none => exact ⟨trivial, hst⟩
  | some list =>
    exact evalExpressionsGo_ok hN list [] env st hst
      (fun v hv => absurd hv (List.not_mem_nil v))

theorem evalBlockGo_ok
    {evalN : Option Node → Nat → EvalState → Res (Option MObject) × EvalState}
    (hN : EvalNOK evalN) :
    ∀ (stmts : List (Option Node)) (result : Option MObject) (env : Nat) (st : EvalState),
      StateOK st → OkOpt result →
      ResOK (evalBlockGo evalN stmts result env st).1 ∧
      StateOK (evalBlockGo evalN stmts result env st).2 := by
  intro stmts
  induction stmts with
  | nil => intro result env st hst hres; exact ⟨hres, hst⟩
  | cons a rest ih =>
    intro result env st hst hres
    obtain ⟨h1, h2⟩ := hN a env st hst
    rcases hev : evalN a env st with ⟨r, st1⟩
    rw [hev] at h1 h2
    cases r with
    | ok v =>
      simp only [evalBlockGo, hev]
      split_ifs
      · exact ⟨h1, h2⟩
      · exact ih v env st1 h2 h1
    | diverge => simp only [evalBlockGo, hev]; exact ⟨trivial, h2⟩
    | thrown => simp only [evalBlockGo, hev]; exact ⟨trivial, h2⟩

theorem evalProgramGo_ok
    {evalN : Option Node → Nat → EvalState → Res (Option MObject) × EvalState}
    (hN : EvalNOK evalN) :
    ∀ (stmts : List Node) (result : Option MObject) (env : Nat) (st : EvalState),
      StateOK st → OkOpt result →
      ResOK (evalProgramGo evalN stmts result env st).1 ∧
      StateOK (evalProgramGo evalN stmts result env st).2 := by
  intro stmts
  induction stmts with
  | nil => intro result env st hst hres; exact ⟨hres, hst⟩
  | cons s rest ih =>
    intro result env st hst hres
    obtain ⟨h1, h2⟩ := hN (some s) env st hst
    rcases hev : evalN (some s) env st with ⟨r, st1⟩
    rw [hev] at h1 h2
    cases r with
    | ok v =>
      simp only [evalProgramGo, hev]
      cases v with
      | none => exact ih none env st1 h2 okOpt_none
      | some o =>
        cases o
        case MReturnValue w r2 => exact ⟨okOpt_some (okObj_rv_inv (h1 _ rfl)), h2⟩
        case MError m r2 => exact ⟨h1, h2⟩
        all_goals exact ih _ env st1 h2 h1
    | diverge => simp only [evalProgramGo, hev]; exact ⟨trivial, h2⟩
    | thrown => simp only [evalProgramGo, hev]; exact ⟨trivial, h2⟩

theorem evalHashGo_ok
    {evalN : Option Node → Nat → EvalState → Res (Option MObject) × EvalState}
    (hN : EvalNOK evalN) :
    ∀ (pairs : List (Node × Node)) (acc : List (String × MObject × Option MObject))
      (env : Nat) (st : EvalState), StateOK st → AccOK acc →
      ResOK (evalHashGo evalN pairs acc env st).1 ∧
      StateOK (evalHashGo evalN pairs acc env st).2 := by
  intro pairs
  induction pairs with
  | nil =>
    intro acc env st hst hacc
    exact ⟨okOpt_some (OkObj.hashOk _ hacc.1 hacc.2), hst⟩
  | cons p rest ih =>
    obtain ⟨kn, vn⟩ := p
    intro acc env st hst hacc
    obtain ⟨h1, h2⟩ := hN (some kn) env st hst
    rcases hev : evalN (some kn) env st with ⟨r, st1⟩
    rw [hev] at h1 h2
    cases r with
    | ok key =>
      by_cases herr : isError key = true
      · simp only [evalHashGo, hev, herr, if_true]
        exact ⟨h1, h2⟩
      · rw [Bool.not_eq_true] at herr
        cases key with
        | none =>
          simp only [evalHashGo, hev, herr, Bool.false_eq_true, if_false, newError, alloc]
          exact ⟨okOpt_some (OkObj.errOk _ _), h2⟩
        | some keyObj =>
          by_cases hmv : isMValue keyObj = true
          · obtain ⟨h3, h4⟩ := hN (some vn) env st1 h2
            rcases hev2 : evalN (some vn) env st1 with ⟨r2, st2⟩
            rw [hev2] at h3 h4
            cases r2 with
            | ok value =>
              by_cases herr2 : isError value = true
              · simp only [evalHashGo, hev, herr, Bool.false_eq_true, if_false, hmv,
                  if_true, hev2, herr2]
                exact ⟨h3, h4⟩
              · rw [Bool.not_eq_true] at herr2
                simp only [evalHashGo, hev, herr, Bool.false_eq_true, if_false, hmv,
                  if_true, hev2, herr2]
                refine ih _ env st2 h4 ⟨?_, ?_⟩
                · intro k key v hmem
                  rcases mapSet_mem hmem with hmem2 | heq
                  · exact hacc.1 k key v hmem2
                  · simp only [Prod.mk.injEq] at heq
                    rw [heq.2.1]
                    exact h1 _ rfl
                · intro k key v o hmem ho
                  rcases mapSet_mem hmem with hmem2 | heq
                  · exact hacc.2 k key v o hmem2 ho
                  · simp only [Prod.mk.injEq] at heq
                    rw [heq.2.2] at ho
                    exact h3 o ho
            | diverge =>
              simp only [evalHashGo, hev, herr, Bool.false_eq_true, if_false, hmv,
                if_true, hev2]
              exact ⟨trivial, h4⟩
            | thrown =>
              simp only [evalHashGo, hev, herr, Bool.false_eq_true, if_false, hmv,
                if_true, hev2]
              exact ⟨trivial, h4⟩
          · rw [Bool.not_eq_true] at hmv
            simp only [evalHashGo, hev, herr, Bool.false_eq_true, if_false, hmv,
              newError, alloc]
            exact ⟨okOpt_some (OkObj.errOk _ _), h2⟩
    | diverge => simp only [evalHashGo, hev]; exact ⟨trivial, h2⟩
    | thrown => simp only [evalHashGo, hev]; exact ⟨trivial, h2⟩

theorem stateOK_extendFunctionEnv {st : EvalState} (hst : StateOK st) (fn : MObject)
    {args : List (Option MObject)} (hargs : ArgsOK args) :
    StateOK (extendFunctionEnv fn args st).2 := by
  cases fn
  case MFunction params body env ref =>
    cases params with
    | none =>
      simp only [extendFunctionEnv]
      exact stateOK_newEnclosedEnvironment hst env
    | some ps =>
      simp only [extendFunctionEnv]
      exact stateOK_bindParams hargs ps 0 _ _ (stateOK_newEnclosedEnvironment hst env)
  all_goals exact stateOK_newEnvironment hst

theorem applyFunction_ok
    {evalN : Option Node → Nat → EvalState → Res (Option MObject) × EvalState}
    (hN : EvalNOK evalN) (fn : MObject) (args : List (Option MObject)) {st : EvalState}
    (hst : StateOK st) (hargs : ArgsOK args) :
    ResOK (applyFunction evalN fn args st).1 ∧ StateOK (applyFunction evalN fn args st).2 := by
  cases fn
  case MFunction params body env ref =>
    rcases hext : extendFunctionEnv (.MFunction params body env ref) args st with ⟨newEnv, stA⟩
    have hstA : StateOK stA := by
      have hx := stateOK_extendFunctionEnv hst (.MFunction params body env ref) hargs
      rw [hext] at hx
      exact hx
    obtain ⟨h1, h2⟩ := hN (body.map Node.blockStatement) newEnv stA hstA
    rcases hev : evalN (body.map Node.blockStatement) newEnv stA with ⟨r, stB⟩
    rw [hev] at h1 h2
    cases r with
    | ok v =>
      simp only [applyFunction, hext, hev]
      cases v with
      | none => exact ⟨okOpt_none, h2⟩
      | some o =>
        cases o
        case MReturnValue w r2 => exact ⟨okOpt_some (okObj_rv_inv (h1 _ rfl)), h2⟩
        all_goals exact ⟨h1, h2⟩
    | diverge => simp only [applyFunction, hext, hev]; exact ⟨trivial, h2⟩
    | thrown => simp only [applyFunction, hext, hev]; exact ⟨trivial, h2⟩
  case MBuiltinFunction name ref =>
    obtain ⟨h1, h2⟩ := applyBuiltin_ok hst name args hargs
    rcases hab : applyBuiltin name args st with ⟨result, stA⟩
    rw [hab] at h1 h2
    cases result with
    | none => simp only [applyFunction, hab]; exact ⟨okOpt_some okObj_NULL, h2⟩
    | some rr => simp only [applyFunction, hab]; exact ⟨h1, h2⟩
  all_goals
    simp only [applyFunction, newError, alloc]
    exact ⟨okOpt_some (OkObj.errOk _ _), hst⟩

/-- One step of the evaluator preserves canonicity: the heart of the C6
induction, a case analysis over every `instanceof` branch of
`evaluateNode`. -/
theorem evalStep_ok
    {evalN : Option Node → Nat → EvalState → Res (Option MObject) × EvalState}
    (hN : EvalNOK evalN) : EvalNOK (evalStep evalN) := by
  intro node env st hst
  cases node with
  | none => exact ⟨trivial, hst⟩
  | some n =>
    cases n with
    | identifier tk value =>
      cases henv : envGet st env value with
      | some v =>
        simp only [evalStep, henv]
        exact ⟨okOpt_some (envGet_ok hst env value v henv), hst⟩
      | none =>
        cases hb : builtinsGet value with
        | some b =>
          simp only [evalStep, henv, hb]
          exact ⟨okOpt_some (builtinsGet_ok value b hb), hst⟩
        | none =>
          simp only [evalStep, henv, hb, newError, alloc]
          exact ⟨okOpt_some (OkObj.errOk _ _), hst⟩
    | integerLiteral tk value =>
      simp only [evalStep, newInteger, alloc]
      exact ⟨okOpt_some (OkObj.intOk _ _), hst⟩
    | stringLiteral tk value =>
      simp only [evalStep, alloc]
      exact ⟨okOpt_some (OkObj.strOk _ _), hst⟩
    | booleanLiteral tk value =>
      simp only [evalStep]
      exact ⟨okOpt_some (okObj_toMonkey value), hst⟩
    | functionLiteral tk ps bd nm =>
      simp only [evalStep, alloc]
      exact ⟨okOpt_some (OkObj.funOk _ _ _ _), hst⟩
    | expressionStatement tk e =>
      simp only [evalStep]
      exact hN e env st hst
    | returnStatement tk rv =>
      obtain ⟨h1, h2⟩ := hN rv env st hst
      rcases hev : evalN rv env st with ⟨r, st1⟩
      rw [hev] at h1 h2
      simp only [evalStep, hev]
      refine ifNotError_ok h1 h2 ?_
      intro o st2 ho hst2
      simp only [alloc]
      exact ⟨okOpt_some (OkObj.retOk _ ho), hst2⟩
    | prefixExpression tk op rightN =>
      obtain ⟨h1, h2⟩ := hN rightN env st hst
      rcases hev : evalN rightN env st with ⟨r, st1⟩
      rw [hev] at h1 h2
      simp only [evalStep, hev]
      refine ifNotError_ok h1 h2 ?_
      intro o st2 ho hst2
      dsimp only
      split_ifs
      · exact ⟨okOpt_some (okObj_evalBang o), hst2⟩
      · have ho2 := okObj_evalMinus o st2
        have hs2 := stateOK_evalMinus hst2 o
        rcases hevm : evalMinusPrefixOperatorExpression o st2 with ⟨obj, st3⟩
        rw [hevm] at ho2 hs2
        simp only [hevm]
        exact ⟨okOpt_some ho2, hs2⟩
      · simp only [newError, alloc]
        exact ⟨okOpt_some (OkObj.errOk _ _), hst2⟩
    | infixExpression tk leftN op rightN =>
      obtain ⟨h1, h2⟩ := hN leftN env st hst
      rcases hev : evalN leftN env st with ⟨r, st1⟩
      rw [hev] at h1 h2
      simp only [evalStep, hev]
      refine ifNotError_ok h1 h2 ?_
      intro l stL hl hstL
      obtain ⟨h3, h4⟩ := hN rightN env stL hstL
      rcases hev2 : evalN rightN env stL with ⟨r2, st2⟩
      rw [hev2] at h3 h4
      refine ifNotError_ok h3 h4 ?_
      intro rr stR hr hstR
      have ho := okObj_evalInfix op l rr stR
      have hs := stateOK_evalInfix hstR op l rr
      rcases hevi : evalInfixExpression op l rr stR with ⟨obj, st3⟩
      rw [hevi] at ho hs
      simp only [hevi]
      exact ⟨okOpt_some ho, hs⟩
    | letStatement tk name value =>
      obtain ⟨h1, h2⟩ := hN value env st hst
      rcases hev : evalN value env st with ⟨r, st1⟩
      rw [hev] at h1 h2
      simp only [evalStep, hev]
      refine ifNotError_ok h1 h2 ?_
      intro v stV hv hstV
      dsimp only
      exact ⟨okOpt_some hv, stateOK_envSet hstV env name.value (okOpt_some hv)⟩
    | ifExpression tk cond cons alt =>
      obtain ⟨h1, h2⟩ := hN cond env st hst
      rcases hev : evalN cond env st with ⟨r, st1⟩
      rw [hev] at h1 h2
      simp only [evalStep, hev]
      refine ifNotError_ok h1 h2 ?_
      intro c stC hc hstC
      dsimp only
      split_ifs
      · exact hN (cons.map Node.blockStatement) env stC hstC
      · cases alt with
        | some altB =>
          cases hsts : altB.statements with
          | none => simp only [hsts]; exact ⟨okOpt_none, hstC⟩
          | some stmts =>
            simp only [hsts]
            exact evalBlockGo_ok hN stmts none env stC hstC okOpt_none
        | none => exact ⟨okOpt_some okObj_NULL, hstC⟩
    | blockStatement b =>
      cases hsts : b.statements with
      | none => simp only [evalStep, hsts]; exact ⟨okOpt_none, hst⟩
      | some stmts =>
        simp only [evalStep, hsts]
        exact evalBlockGo_ok hN stmts none env st hst okOpt_none
    | callExpression tk fnN argsN =>
      obtain ⟨h1, h2⟩ := hN fnN env st hst
      rcases hev : evalN fnN env st with ⟨r, st1⟩
      rw [hev] at h1 h2
      simp only [evalStep, hev]
      refine ifNotError_ok h1 h2 ?_
      intro f stF hf hstF
      obtain ⟨h3, h4⟩ := evalExpressions_ok hN argsN env hstF
      rcases hargs : evalExpressions evalN argsN env stF with ⟨ra, st2⟩
      rw [hargs] at h3 h4
      cases ra with
      | ok argsList =>
        simp only [hargs]
        split_ifs
        · exact ⟨argsGetD_ok h3 0, h4⟩
        · exact applyFunction_ok hN f argsList h4 h3
      | diverge => simp only [hargs]; exact ⟨trivial, h4⟩
      | thrown => simp only [hargs]; exact ⟨trivial, h4⟩
    | indexExpression tk leftN idxN =>
      obtain ⟨h1, h2⟩ := hN leftN env st hst
      rcases hev : evalN leftN env st with ⟨r, st1⟩
      rw [hev] at h1 h2
      cases r with
      | ok leftV =>
        by_cases herr : isError leftV = true
        · simp only [evalStep, hev, herr, if_true]
          exact ⟨h1, h2⟩
        · rw [Bool.not_eq_true] at herr
          obtain ⟨h3, h4⟩ := hN idxN env st1 h2
          rcases hev2 : evalN idxN env st1 with ⟨r2, st2⟩
          rw [hev2] at h3 h4
          cases r2 with
          | ok idxV =>
            by_cases herr2 : isError idxV = true
            · simp only [evalStep, hev, herr, Bool.false_eq_true, if_false, hev2, herr2,
                if_true]
              exact ⟨h3, h4⟩
            · rw [Bool.not_eq_true] at herr2
              simp only [evalStep, hev, herr, Bool.false_eq_true, if_false, hev2, herr2]
              cases leftV with
              | none =>
                simp only [newError, alloc]
                exact ⟨okOpt_some (OkObj.errOk _ _), h4⟩
              | some o =>
                cases o with
                | MArray id ref =>
                  cases idxV with
                  | none =>
                    simp only [newError, alloc]
                    exact ⟨okOpt_some (OkObj.errOk _ _), h4⟩
                  | some o2 =>
                    cases o2
                    · exact ⟨okOpt_evalArrayIndex h4 _ _, h4⟩
                    all_goals simp only [newError, alloc]
                    all_goals exact ⟨okOpt_some (OkObj.errOk _ _), h4⟩
                | MHash hashPairs ref =>
                  have hh : OkObj (.MHash hashPairs ref) := h1 _ rfl
                  obtain ⟨h5, h6⟩ := evalHashIndex_ok hh idxV h4
                  rcases hevh : evalHashIndexExpression (.MHash hashPairs ref) idxV st2
                    with ⟨rr, st3⟩
                  rw [hevh] at h5 h6
                  simp only [hevh]
                  exact ⟨h5, h6⟩
                | MInteger v r =>
                  simp only [newError, alloc]
                  exact ⟨okOpt_some (OkObj.errOk _ _), h4⟩
                | MBoolean b r =>
                  simp only [newError, alloc]
                  exact ⟨okOpt_some (OkObj.errOk _ _), h4⟩
                | MString s r =>
                  simp only [newError, alloc]
                  exact ⟨okOpt_some (OkObj.errOk _ _), h4⟩
                | MReturnValue v r =>
                  simp only [newError, alloc]
                  exact ⟨okOpt_some (OkObj.errOk _ _), h4⟩
                | MError m r =>
                  simp only [newError, alloc]
                  exact ⟨okOpt_some (OkObj.errOk _ _), h4⟩
                | MNull r =>
                  simp only [newError, alloc]
                  exact ⟨okOpt_some (OkObj.errOk _ _), h4⟩
                | MFunction p b e r =>
                  simp only [newError, alloc]
                  exact ⟨okOpt_some (OkObj.errOk _ _), h4⟩
                | MBuiltinFunction bn r =>
                  simp only [newError, alloc]
                  exact ⟨okOpt_some (OkObj.errOk _ _), h4⟩
          | diverge =>
            simp only [evalStep, hev, herr, Bool.false_eq_true, if_false, hev2]
            exact ⟨trivial, h4⟩
          | thrown =>
            simp only [evalStep, hev, herr, Bool.false_eq_true, if_false, hev2]
            exact ⟨trivial, h4⟩
      | diverge => simp only [evalStep, hev]; exact ⟨trivial, h2⟩
      | thrown => simp only [evalStep, hev]; exact ⟨trivial, h2⟩
    | hashLiteral tk pairs =>
      simp only [evalStep]
      exact evalHashGo_ok hN pairs [] env st hst
        ⟨fun k key v h => absurd h (List.not_mem_nil _),
         fun k key v o h _ => absurd h (List.not_mem_nil _)⟩
    | arrayLiteral tk elements =>
      obtain ⟨h1, h2⟩ := evalExpressions_ok hN elements env hst
      rcases hev : evalExpressions evalN elements env st with ⟨r, st1⟩
      rw [hev] at h1 h2
      cases r with
      | ok elems =>
        simp only [evalStep, hev]
        split_ifs
        · exact ⟨argsGetD_ok h1 0, h2⟩
        · refine ⟨okOpt_some (OkObj.arrOk _ _), ?_, ?_⟩
          · intro fr hfr p hp
            exact h2.1 fr hfr p hp
          · intro arr harr v hv
            rcases List.mem_append.mp harr with hmem | hnew
            · exact h2.2 arr hmem v hv
            · rw [List.mem_singleton.mp hnew] at hv
              exact h1 v hv
      | diverge => simp only [evalStep, hev]; exact ⟨trivial, h2⟩
      | thrown => simp only [evalStep, hev]; exact ⟨trivial, h2⟩

/-- Canonicity preservation at every fuel level, by induction on the fuel. -/
theorem evaluateNodeFn_ok : ∀ fuel, EvalNOK (evaluateNodeFn fuel) := by
  intro fuel
  induction fuel with
  | zero => intro node env st hst; exact ⟨trivial, hst⟩
  | succ f ih => exact evalStep_ok ih

/-- **C6.**  Every `Boolean` object and every `Null` object the evaluator
produces or returns, for any program, any environment and any canonical
starting state, is one of the canonical singletons: the result satisfies
`OkObj` (every `MBoolean` reachable through `ReturnValue` envelopes and
hash buckets carries the canonical reference `cond b 0 1` and every
`MNull` the canonical reference `2`), both heaps stay canonical, and in
particular a `Boolean` result is the object `TRUE` or the object `FALSE`
and a `Null` result is the object `M_NULL` — no evaluator branch
manufactures a fresh `MBoolean` or `MNull`. -/
theorem c6_canonical_singletons :
    ∀ (fuel : Nat) (program : Program) (env : Nat) (st : EvalState), StateOK st →
      ResOK (evaluate fuel program env st).1 ∧ StateOK (evaluate fuel program env st).2 ∧
      ∀ v st2, evaluate fuel program env st = (.ok (some v), st2) →
        OkObj v ∧
        (∀ b r, v = .MBoolean b r → v = TRUE ∨ v = FALSE) ∧
        (∀ r, v = .MNull r → v = M_NULL) := by
  intro fuel program env st hst
  obtain ⟨h1, h2⟩ :=
    evalProgramGo_ok (evaluateNodeFn_ok fuel) program.statements none env st hst okOpt_none
  refine ⟨h1, h2, ?_⟩
  intro v st2 hev
  have h1' : ResOK (evaluate fuel program env st).1 := h1
  rw [hev] at h1'
  have hv : OkObj v := h1' v rfl
  refine ⟨hv, ?_, ?_⟩
  · intro b r hvb
    subst hvb
    cases hv with
    | boolOk b =>
      cases b with
      | true => exact Or.inl rfl
      | false => exact Or.inr rfl
  · intro r hvn
    subst hvn
    cases hv
    rfl

def c6prog : Program :=
  ⟨[.expressionStatement ⟨.TRUE, "true"⟩ (some (.booleanLiteral ⟨.TRUE, "true"⟩ true))]⟩

theorem c6_witness :
    StateOK st0 ∧
    (ResOK (evaluate 2 c6prog env0 st0).1 ∧ StateOK (evaluate 2 c6prog env0 st0).2) ∧
    (evaluate 2 c6prog env0 st0).1 = Res.ok (some TRUE) := by
  have hst : StateOK st0 := by
    refine ⟨?_, ?_⟩
    · intro fr hfr p hp
      rw [show st0.frames = [⟨[], none⟩] from rfl, List.mem_singleton] at hfr
      subst hfr
      exact absurd hp (List.not_mem_nil p)
    · intro arr harr
      rw [show st0.arrays = ([] : List (List (Option MObject))) from rfl] at harr
      exact absurd harr (List.not_mem_nil arr)
  obtain ⟨h1, h2, _⟩ := c6_canonical_singletons 2 c6prog env0 st0 hst
  exact ⟨hst, ⟨h1, h2⟩, rfl⟩

end TSMonkey
